import Mathlib

/-!
# EcmCheckProcessor: a shallow embedding of the event classifier and its accumulators

Source: `src/src/EcmCheckProcessor.cc` and `src/include/EcmCheckProcessor.h`.

Modelling conventions.

* `Double_t` components of four-vectors are values of an arbitrary type `R`
  carrying `+` and `0`.  No algebraic law of `R` is used unless a theorem
  lists it among its hypotheses, so the results do not rest on exact
  arithmetic.
* `Int_t` species codes are `Int`; they are only compared, never computed
  with.  The `int` counters `_nRun` and `_nEvt` are `Int` reduced to 32 bits
  after every increment (`wrapInt32`), `%` on `int` traps on a zero divisor
  (`intMod`), the contents of a histogram bin are whole `Double_t` values
  (exact up to `2^53`), and `static_cast<int>` of such a content has a value
  only when it fits `int` (`castCount`).
* A local variable declared without an initialiser (`Int_t nMCP;`,
  `Int_t qpdg[2];`) starts with whatever its storage holds.  That content
  is an explicit argument (`Unset`) of every call.
* The parent and daughter links of an `MCParticle` are only used through
  `size()` and `[0]->getPDG()`; a particle therefore carries the lists of
  the species codes of its parents and of its daughters.
* The row that `hAnl->Fill()` appends is the value of the locals bound to
  the branches at the moment of the call.
* The greeting of line 119 is recorded by its event number (`hello`); a
  call that traps on line 118 kills the job: no later call, no `end()`.
* `evt->getCollection` throws when the event has no collection of the given
  name; `processEvent` has no handler, so the call ends there, with the
  members and statics as the statements before line 157 left them.
-/

namespace EcmCheck

/-! ## Four-vectors (`TLorentzVector`) -/

/-- Energy-momentum four-vector `(px, py, pz, E)` of ROOT. -/
structure TLorentzVector (R : Type) where
  px : R
  py : R
  pz : R
  e : R
deriving DecidableEq, Repr

/-- The default constructor `TLorentzVector()` gives the zero vector. -/
instance instZeroTLorentzVector {R : Type} [Zero R] : Zero (TLorentzVector R) :=
  ⟨⟨0, 0, 0, 0⟩⟩

/-- The `operator+` (and `operator+=`) of `TLorentzVector` adds componentwise. -/
instance instAddTLorentzVector {R : Type} [Add R] : Add (TLorentzVector R) :=
  ⟨fun a b => ⟨a.px + b.px, a.py + b.py, a.pz + b.pz, a.e + b.e⟩⟩

/-- The setter `SetPxPyPzE(px, py, pz, e)`. -/
def TLorentzVector.SetPxPyPzE {R : Type} (_v : TLorentzVector R) (px py pz e : R) :
    TLorentzVector R :=
  ⟨px, py, pz, e⟩

/-! ## Particle records (`MCParticle`) -/

/-- One generated particle, as far as `processEvent` reads it:
`getPDG()`, `isOverlay()`, the species codes of `getParents()` and of
`getDaughters()` in order, `getMomentum()` and `getEnergy()`. -/
structure MCParticle (R : Type) where
  pdg : Int
  isOverlay : Bool
  parents : List Int
  daughters : List Int
  momX : R
  momY : R
  momZ : R
  energy : R
deriving DecidableEq, Repr

/-- Modelled from the spec: `getLorentzVector` of `Utilities.h` (not under
`src/`); a four-vector is "constructed from a particle's momentum and
energy". -/
def getLorentzVector {R : Type} (mcPart : MCParticle R) : TLorentzVector R :=
  ⟨mcPart.momX, mcPart.momY, mcPart.momZ, mcPart.energy⟩

/-- Modelled from the spec: `getLorentzEcm` of `Utilities.h` (not under
`src/`); "`beamVector(ecm) -> (0,0,0,ecm)`". -/
def getLorentzEcm {R : Type} [Zero R] (ecm : R) : TLorentzVector R :=
  ⟨0, 0, 0, ecm⟩

/-- Line 164: `Int_t ioverlay = mcPart->isOverlay()? 1 : 0;`. -/
def ioverlay {R : Type} (mcPart : MCParticle R) : Int :=
  if mcPart.isOverlay then 1 else 0

/-- Line 165: `Int_t nparents = mcPart->getParents().size();`. -/
def nparents {R : Type} (mcPart : MCParticle R) : Int :=
  mcPart.parents.length

/-- Lines 166-170: the species code of the first parent, `0` without parent. -/
def motherpdg {R : Type} (mcPart : MCParticle R) : Int :=
  if nparents mcPart > 0 then mcPart.parents.headD 0 else 0

/-- Line 172: `Int_t ndaughters = mcPart->getDaughters().size();`. -/
def ndaughters {R : Type} (mcPart : MCParticle R) : Int :=
  mcPart.daughters.length

/-- Lines 173-177: the species code of the first daughter, `0` without
daughter (computed by the source, used by no later statement). -/
def daughterpdg {R : Type} (mcPart : MCParticle R) : Int :=
  if ndaughters mcPart > 0 then mcPart.daughters.headD 0 else 0

/-- Guard of line 180 (positive quark). -/
def isPosQuark {R : Type} (mcPart : MCParticle R) : Bool :=
  decide ((mcPart.pdg > 0 ∧ mcPart.pdg < 10) ∧ motherpdg mcPart = 0 ∧ ioverlay mcPart = 0)

/-- Guard of line 185 (negative quark). -/
def isNegQuark {R : Type} (mcPart : MCParticle R) : Bool :=
  decide ((mcPart.pdg > -10 ∧ mcPart.pdg < 0) ∧ motherpdg mcPart = 0 ∧ ioverlay mcPart = 0)

/-- Guard of line 190 (boson candidate). -/
def isHiggs {R : Type} (mcPart : MCParticle R) : Bool :=
  decide (mcPart.pdg = 25 ∧ motherpdg mcPart = 0 ∧ ioverlay mcPart = 0)

/-- Guard of line 171 (primary particle). -/
def isOrigin {R : Type} (mcPart : MCParticle R) : Bool :=
  decide (nparents mcPart = 0 ∧ ioverlay mcPart = 0)

/-! ## The locals of `processEvent` bound to the branches of the tree -/

/-- Content of the storage of the locals declared without initialiser
(lines 125 and 127) when `processEvent` is entered. -/
structure Unset where
  nMCP : Int
  qpdg0 : Int
  qpdg1 : Int
deriving DecidableEq, Repr

/-- The locals of lines 125-133; `qpdg0`, `qpdg1` stand for `qpdg[0]`,
`qpdg[1]`, and likewise for `qmc` and `lrzISRmc`. -/
structure Locals (R : Type) where
  nMCP : Int
  nOriginP : Int
  qpdg0 : Int
  qpdg1 : Int
  qmc0 : TLorentzVector R
  qmc1 : TLorentzVector R
  lrzZmc : TLorentzVector R
  lrzHmc : TLorentzVector R
  lrzISRmc0 : TLorentzVector R
  lrzISRmc1 : TLorentzVector R
  lrzEcm : TLorentzVector R
  lrzEcmmc : TLorentzVector R
deriving DecidableEq, Repr

/-- Lines 125-133: the declarations. -/
def declareLocals {R : Type} [Zero R] (fEcm : R) (u : Unset) : Locals R :=
  { nMCP := u.nMCP
    nOriginP := 0
    qpdg0 := u.qpdg0
    qpdg1 := u.qpdg1
    qmc0 := 0
    qmc1 := 0
    lrzZmc := 0
    lrzHmc := 0
    lrzISRmc0 := 0
    lrzISRmc1 := 0
    lrzEcm := getLorentzEcm fEcm
    lrzEcmmc := 0 }

/-- Lines 162-198: the body of the loop for the particle at position `i`. -/
def loopBody {R : Type} [Add R] (i : Nat) (mcPart : MCParticle R) (v : Locals R) : Locals R :=
  let pdg := mcPart.pdg
  let v1 := if nparents mcPart = 0 ∧ ioverlay mcPart = 0 then
      { v with nOriginP := v.nOriginP + 1 } else v
  let lortz := getLorentzVector mcPart
  let v2 := if (pdg > 0 ∧ pdg < 10) ∧ motherpdg mcPart = 0 ∧ ioverlay mcPart = 0 then
      { v1 with qpdg0 := pdg, qmc0 := lortz, lrzZmc := v1.lrzZmc + lortz } else v1
  let v3 := if (pdg > -10 ∧ pdg < 0) ∧ motherpdg mcPart = 0 ∧ ioverlay mcPart = 0 then
      { v2 with qpdg1 := pdg, qmc1 := lortz, lrzZmc := v2.lrzZmc + lortz } else v2
  let v4 := if pdg = 25 ∧ motherpdg mcPart = 0 ∧ ioverlay mcPart = 0 then
      { v3 with lrzHmc := lortz } else v3
  let v5 := if i = 0 ∧ motherpdg mcPart = 0 then { v4 with lrzISRmc0 := lortz } else v4
  if i = 1 ∧ motherpdg mcPart = 0 then { v5 with lrzISRmc1 := lortz } else v5

/-- Lines 161-199: `for (Int_t i=0;i<nMCP;i++)` over the elements from
position `i` on. -/
def loop {R : Type} [Add R] : Nat → List (MCParticle R) → Locals R → Locals R
  | _, [], v => v
  | i, mcPart :: rest, v => loop (i + 1) rest (loopBody i mcPart v)

/-- Lines 125-133 and 159-200: the values of the locals when `hAnl->Fill()`
is reached, for the particle collection `colMC`. -/
def eventLocals {R : Type} [Add R] [Zero R] (fEcm : R) (u : Unset)
    (colMC : List (MCParticle R)) : Locals R :=
  let v0 := declareLocals fEcm u
  let v1 := { v0 with nMCP := colMC.length }
  let v2 := { v1 with lrzZmc := v1.lrzZmc.SetPxPyPzE 0 0 0 0 }
  let v3 := loop 0 colMC v2
  { v3 with lrzEcmmc := v3.qmc0 + v3.qmc1 + v3.lrzHmc + v3.lrzISRmc0 + v3.lrzISRmc1 }

/-! ## Machine integers -/

/-- The value that an `int` holds after a computation with exact result
`x`: `x` reduced to 32 bits, two's complement. -/
def wrapInt32 (x : Int) : Int :=
  (x + 2147483648) % 4294967296 - 2147483648

/-- The operation `a % b` on `int`: the remainder of the truncated
division; `none` stands for the trap (SIGFPE) on `b = 0` and on
`INT_MIN % -1`. -/
def intMod (a b : Int) : Option Int :=
  if b = 0 ∨ (a = -2147483648 ∧ b = -1) then none else some (Int.tmod a b)

/-- The conversion `static_cast<int>(x)` of a `Double_t` holding the whole
number `x >= 0`: `x` when it fits `int`; beyond `INT_MAX` the conversion
has no defined value (`none`). -/
def castCount (x : Nat) : Option Int :=
  if x < 2147483648 then some (x : Int) else none

/-! ## The histogram `hStatAnl` and the label buffers `gCutName` -/

/-- A `Double_t` abscissa of the cut table.  The abscissae of the source
are `-0.5` and what `++` makes of it, and the axis bounds are integers; all
are multiples of `0.5`, which a `Double_t` holds exactly.  The value `x` is
stored as the integer `2 * x`. -/
structure Abscissa where
  twice : Int
deriving DecidableEq, Repr

/-- The literal `-0.5`. -/
def Abscissa.minusHalf : Abscissa := ⟨-1⟩

/-- The increment `++x`. -/
def Abscissa.incr (x : Abscissa) : Abscissa := ⟨x.twice + 2⟩

/-- The cast `(Int_t)x`: truncation towards zero. -/
def Abscissa.castInt (x : Abscissa) : Int :=
  Int.tdiv x.twice 2

/-- One-dimensional histogram of ROOT with `fNbins` equal bins on
`[fXmin, fXmax)`, the bounds being integers; `fArray` holds the underflow
bin `0`, the bins `1..fNbins` and the overflow bin `fNbins + 1`. -/
structure TH1D where
  fNbins : Nat
  fXmin : Int
  fXmax : Int
  fArray : List Nat
deriving DecidableEq, Repr

/-- The constructor `TH1D(name, title, nbins, xlow, xup)`. -/
def TH1D.new (nbins : Nat) (xlow xup : Int) : TH1D :=
  ⟨nbins, xlow, xup, List.replicate (nbins + 2) 0⟩

/-- The bin of abscissa `x` (`TAxis::FindBin` with fixed bins):
`0` below `fXmin`, `fNbins + 1` from `fXmax` on, and
`1 + int(fNbins * (x - fXmin) / (fXmax - fXmin))` between. -/
def TH1D.FindBin (h : TH1D) (x : Abscissa) : Nat :=
  if x.twice < 2 * h.fXmin then 0
  else if ¬ (x.twice < 2 * h.fXmax) then h.fNbins + 1
  else 1 + (((h.fNbins : Int) * (x.twice - 2 * h.fXmin)) / (2 * (h.fXmax - h.fXmin))).toNat

/-- The call `Fill(x)`: `1.0` is added to the content of the bin of `x`;
the sum is exact below `2^53` and rounds back to `2^53` there. -/
def TH1D.Fill (h : TH1D) (x : Abscissa) : TH1D :=
  let bin := h.FindBin x
  let c := h.fArray.getD bin 0
  { h with fArray := h.fArray.set bin (if c < 9007199254740992 then c + 1 else c) }

/-- The call `GetBinContent(bin)`. -/
def TH1D.GetBinContent (h : TH1D) (bin : Nat) : Nat :=
  h.fArray.getD bin 0

/-- The terminator that `std::ends` inserts. -/
def ends : Char := Char.ofNat 0

/-- The characters of `s.str().data()` read as a C string: up to the first
terminator. -/
def cString (s : List Char) : List Char :=
  s.takeWhile (fun c => c != ends)

/-- The value of `s.str().data()[0]`, the terminator for an empty buffer. -/
def firstChar (s : List Char) : Char :=
  s.headD ends

/-! ## The processor: members, function statics, life cycle -/

/-- An event: its named collections; only `MCParticle` collections occur. -/
structure LCEvent (R : Type) where
  collections : List (String × List (MCParticle R))

/-- The call `evt->getCollection(name)`; `none` stands for the
`DataNotAvailableException` thrown when the event has no such collection. -/
def LCEvent.getCollection {R : Type} (evt : LCEvent R) (name : String) :
    Option (List (MCParticle R)) :=
  (evt.collections.find? (fun c => c.1 == name)).map (fun c => c.2)

/-- The members of `EcmCheckProcessor` read or written by the life-cycle
methods, the statics of `processEvent` (`fEcm` of line 107, `hAnl` of
line 135: `none` before the first call, the list of rows of the tree
afterwards), and `hello`, the event numbers of the greetings that line 119
wrote to `cerr`. -/
structure Processor (R : Type) where
  _colMCP : String
  _ecm : R
  _nHello : Int
  _nRun : Int
  _nEvt : Int
  hStatAnl : Option TH1D
  gCutName : List (List Char)
  fEcm : Option R
  hAnl : Option (List (Locals R))
  hello : List Int

/-- The processor at the end of `init()` (lines 78-94) at the start of a
job, for the steering parameters `colMCP`, `ecm` and `nHello`: counters at
`0`, `hStatAnl` null, the twenty label buffers empty, the statics not yet
initialised, nothing printed. -/
def init {R : Type} (colMCP : String) (ecm : R) (nHello : Int) : Processor R :=
  { _colMCP := colMCP
    _ecm := ecm
    _nHello := nHello
    _nRun := 0
    _nEvt := 0
    hStatAnl := none
    gCutName := List.replicate 20 []
    fEcm := none
    hAnl := none
    hello := [] }

/-- Lines 96-98. -/
def processRunHeader {R : Type} (p : Processor R) : Processor R :=
  { p with _nRun := wrapInt32 (p._nRun + 1) }

/-- How a call of `processEvent` ends, with the processor it leaves:
it returns, it throws the exception of `getCollection`, or the process is
killed by the trap of line 118. -/
inductive Outcome (R : Type) where
  | returned (p : Processor R)
  | thrown (p : Processor R)
  | killed (p : Processor R)

/-- The processor left by a call, however it ended. -/
def Outcome.state {R : Type} : Outcome R → Processor R
  | .returned p => p
  | .thrown p => p
  | .killed p => p

/-- Whether the call ended with the process killed. -/
def Outcome.isKilled {R : Type} : Outcome R → Bool
  | .returned _ => false
  | .thrown _ => false
  | .killed _ => true

/-- Lines 100-214: one call of `processEvent`, entered with the storage
content `u` for the uninitialised locals. -/
def processEvent {R : Type} [Add R] [Zero R] (p : Processor R) (u : Unset)
    (evt : LCEvent R) : Outcome R :=
  let nEvt := wrapInt32 (p._nEvt + 1)
  let fEcm := p.fEcm.getD p._ecm
  let h := p.hStatAnl.getD (TH1D.new 20 0 20)
  let selid := Abscissa.minusHalf
  let selid := selid.incr
  let h := h.Fill selid
  let idx := selid.castInt.toNat
  let names := p.gCutName.set idx (p.gCutName.getD idx [] ++ "No Cuts".toList ++ [ends])
  let p0 : Processor R :=
    { p with _nEvt := nEvt, fEcm := some fEcm, hStatAnl := some h, gCutName := names }
  match intMod nEvt p._nHello with
  | none => .killed p0
  | some r =>
    let hello := if r = 0 then p.hello ++ [nEvt] else p.hello
    let tree := p.hAnl.getD []
    let p1 : Processor R := { p0 with hello := hello, hAnl := some tree }
    match evt.getCollection p._colMCP with
    | none => .thrown p1
    | some colMC => .returned { p1 with hAnl := some (tree ++ [eventLocals fEcm u colMC]) }

/-- A job after a sequence of calls: the processor, and whether the process
was killed (then `end()` is never called). -/
structure Job (R : Type) where
  proc : Processor R
  killed : Bool

/-- A sequence of calls of `processEvent`, each with its storage content
and its event.  A call that throws leaves the processor as it is at the
throw, and the next call starts from there; a call that is killed ends the
sequence. -/
def processEvents {R : Type} [Add R] [Zero R] :
    Processor R → List (Unset × LCEvent R) → Job R
  | p, [] => ⟨p, false⟩
  | p, (u, evt) :: rest =>
    match processEvent p u evt with
    | .returned q => processEvents q rest
    | .thrown q => processEvents q rest
    | .killed q => ⟨q, true⟩

/-- One line of the cut table printed by `end()`. -/
structure CutRow where
  id : Nat
  nEvents : Int
  description : List Char
deriving DecidableEq, Repr

/-- Lines 238-242: the loop `for (int id=0; id<20 && gCutName[id]...[0]; id++)`
from `id` on, with `n` iterations left at most (twenty suffice, since
`id < 20`); `none` stands for the dereference of a null `hStatAnl` and for
a `static_cast<int>` without defined value. -/
def cutLoop {R : Type} (p : Processor R) : Nat → Nat → Option (List CutRow)
  | 0, _ => some []
  | n + 1, id =>
    if id < 20 ∧ firstChar (p.gCutName.getD id []) ≠ ends then
      match p.hStatAnl with
      | none => none
      | some h =>
        match castCount (h.GetBinContent (id + 1)) with
        | none => none
        | some c =>
          (cutLoop p n (id + 1)).map
            (fun rows => ⟨id, c, cString (p.gCutName.getD id [])⟩ :: rows)
    else some []

/-- Lines 223-247: the lines of the cut table that `end()` prints. -/
def end_ {R : Type} (p : Processor R) : Option (List CutRow) :=
  cutLoop p 20 0

/-- The rows of the output dataset. -/
def Processor.rows {R : Type} (p : Processor R) : List (Locals R) :=
  p.hAnl.getD []

/-! ## Words used to state what the loop computes -/

/-- The last element of the list, in iteration order, that meets `c`. -/
def lastWith {α : Type} (c : α → Bool) (l : List α) : Option α :=
  (l.filter c).getLast?

/-- The sum accumulated by `+=` from `z` on, in iteration order. -/
def sumFrom {α : Type} [Add α] (z : α) (l : List α) : α :=
  l.foldl (fun acc x => acc + x) z

/-- The content of `gCutName[0]` after `K` calls: `K` times the label and
its terminator. -/
def repeatLabel : Nat → List Char
  | 0 => []
  | K + 1 => repeatLabel K ++ "No Cuts".toList ++ [ends]

/-- The histogram `hStatAnl` with content `c` in bin `1` and none elsewhere. -/
def cutHistogram (c : Nat) : TH1D :=
  ⟨20, 0, 20, 0 :: c :: List.replicate 20 0⟩

/-- The row that a call appends: the event record of its collection, none
when the collection cannot be read. -/
def rowOf {R : Type} [Add R] [Zero R] (colMCP : String) (ecm : R)
    (call : Unset × LCEvent R) : Option (Locals R) :=
  (call.2.getCollection colMCP).map (eventLocals ecm call.1)

/-- The event numbers greeted in the first `K` calls. -/
def greetings (nHello : Int) : Nat → List Int
  | 0 => []
  | K + 1 =>
    if Int.tmod (wrapInt32 ((K + 1 : Nat) : Int)) nHello = 0 then
      greetings nHello K ++ [wrapInt32 ((K + 1 : Nat) : Int)]
    else greetings nHello K

/-- The processor with `K` calls of `processEvent` behind it, none of them
killed, `nRun` in the run counter, and the rows `rows` in the tree. -/
def afterCalls {R : Type} (colMCP : String) (ecm : R) (nHello nRun : Int) (K : Nat)
    (rows : List (Locals R)) : Processor R :=
  { _colMCP := colMCP
    _ecm := ecm
    _nHello := nHello
    _nRun := nRun
    _nEvt := wrapInt32 (K : Int)
    hStatAnl := if K = 0 then none else some (cutHistogram (min K 9007199254740992))
    gCutName := repeatLabel K :: List.replicate 19 []
    fEcm := if K = 0 then none else some ecm
    hAnl := if K = 0 then none else some rows
    hello := greetings nHello K }

/-- The vector that the particle at a position gives a leading slot:
its four-vector when its parent code is `0`, else what the slot held. -/
def leadingAt {R : Type} (old : TLorentzVector R) : Option (MCParticle R) → TLorentzVector R
  | some p => if motherpdg p = 0 then getLorentzVector p else old
  | none => old


/-! ## The classification step as the specification words it

Section 4.2, step 2 of the specification: the three categories form an
exclusive chain (d, else e, else f), followed by the two leading slots
(g, h). -/

/-- Step 2d: "species code is in [1,9] (inclusive), parent code is 0, and
not overlay". -/
def specPosQuark {R : Type} (mcPart : MCParticle R) : Bool :=
  decide (1 ≤ mcPart.pdg ∧ mcPart.pdg ≤ 9 ∧ motherpdg mcPart = 0 ∧ mcPart.isOverlay = false)

/-- Step 2e: "species code is in [-9,-1] (inclusive) and parent code is 0
and not overlay". -/
def specNegQuark {R : Type} (mcPart : MCParticle R) : Bool :=
  decide (-9 ≤ mcPart.pdg ∧ mcPart.pdg ≤ -1 ∧ motherpdg mcPart = 0 ∧ mcPart.isOverlay = false)

/-- Step 2f: "species code equals 25 and parent code is 0 and not overlay". -/
def specHiggs {R : Type} (mcPart : MCParticle R) : Bool :=
  decide (mcPart.pdg = 25 ∧ motherpdg mcPart = 0 ∧ mcPart.isOverlay = false)

/-- Steps 2b-2h for the particle at position `i`, with the chain
"if ... else if ... else if". -/
def loopBodySpec {R : Type} [Add R] (i : Nat) (mcPart : MCParticle R) (v : Locals R) :
    Locals R :=
  let v1 := if mcPart.parents = [] ∧ mcPart.isOverlay = false then
      { v with nOriginP := v.nOriginP + 1 } else v
  let lortz := getLorentzVector mcPart
  let v2 :=
    if specPosQuark mcPart then
      { v1 with qpdg0 := mcPart.pdg, qmc0 := lortz, lrzZmc := v1.lrzZmc + lortz }
    else if specNegQuark mcPart then
      { v1 with qpdg1 := mcPart.pdg, qmc1 := lortz, lrzZmc := v1.lrzZmc + lortz }
    else if specHiggs mcPart then
      { v1 with lrzHmc := lortz }
    else v1
  let v3 := if i = 0 ∧ motherpdg mcPart = 0 then { v2 with lrzISRmc0 := lortz } else v2
  if i = 1 ∧ motherpdg mcPart = 0 then { v3 with lrzISRmc1 := lortz } else v3

/-- Step 2 over the particles from position `i` on. -/
def loopSpec {R : Type} [Add R] : Nat → List (MCParticle R) → Locals R → Locals R
  | _, [], v => v
  | i, mcPart :: rest, v => loopSpec (i + 1) rest (loopBodySpec i mcPart v)

/-! ## Concrete particles and events -/

/-- A parentless, non-overlay b quark. -/
def quarkB : MCParticle Int := ⟨5, false, [], [21], 1, 2, 3, 4⟩

/-- A parentless, non-overlay anti-b quark. -/
def antiquarkB : MCParticle Int := ⟨-5, false, [], [21], 10, 20, 30, 40⟩

/-- A parentless, non-overlay boson of code 25. -/
def higgs : MCParticle Int := ⟨25, false, [], [], 100, 200, 300, 400⟩

/-- A photon radiated by an electron (first parent of code 11). -/
def daughterPhoton : MCParticle Int := ⟨22, false, [11], [], 0, 0, 6, 6⟩

/-- A parentless photon. -/
def isrPhoton : MCParticle Int := ⟨22, false, [], [], 0, 0, 9, 9⟩

/-- A non-overlay s quark whose only parent has species code `0`. -/
def quarkOfCodeZeroParent : MCParticle Int := ⟨3, false, [0], [], 7, 7, 7, 7⟩

/-- A parentless non-overlay s quark. -/
def quarkS : MCParticle Int := ⟨3, false, [], [], 1, 2, 3, 4⟩

/-- A parentless overlay s quark. -/
def overlayQuarkS : MCParticle Int := ⟨3, true, [], [], 1, 2, 3, 4⟩

/-- Storage content with all three uninitialised locals at `0`. -/
def cleanStorage : Unset := ⟨0, 0, 0⟩

/-- Storage content in which the two species-code cells hold `5` and `-5`,
as a preceding event with a b-quark pair leaves them. -/
def usedStorage : Unset := ⟨2, 5, -5⟩

/-- An event whose `MCParticle` collection is `l`. -/
def eventOf (l : List (MCParticle Int)) : LCEvent Int := ⟨[("MCParticle", l)]⟩

/-- An event without `MCParticle` collection. -/
def eventWithoutMCParticle : LCEvent Int := ⟨[("PandoraPFOs", [])]⟩

/-! ## The loop body, field by field -/

section Lemmas

variable {R : Type}

theorem lastWith_nil {α : Type} (c : α → Bool) : lastWith c [] = none := rfl

theorem lastWith_cons {α : Type} (c : α → Bool) (a : α) (l : List α) :
    lastWith c (a :: l) = (lastWith c l).or (if c a then some a else none) := by
  unfold lastWith
  by_cases h : c a
  · simp only [List.filter_cons_of_pos h, h, if_true, List.getLast?_cons]
    cases (List.filter c l).getLast? <;> rfl
  · simp only [List.filter_cons_of_neg h, h]
    cases (List.filter c l).getLast? <;> rfl

theorem lastWith_some_mem {α : Type} {c : α → Bool} {l : List α} {a : α}
    (h : lastWith c l = some a) : a ∈ l ∧ c a = true := by
  unfold lastWith at h
  have hm : a ∈ l.filter c := List.mem_of_getLast?_eq_some h
  exact List.mem_filter.mp hm

theorem lastWith_none_iff {α : Type} {c : α → Bool} {l : List α} :
    lastWith c l = none ↔ ∀ a ∈ l, c a = false := by
  unfold lastWith
  simp [List.getLast?_eq_none_iff, List.filter_eq_nil_iff]

/-- No particle passes two of the guards of lines 180, 185 and 190. -/
theorem guards_exclusive (p : MCParticle R) :
    ¬ (isPosQuark p = true ∧ isNegQuark p = true) ∧
    ¬ (isPosQuark p = true ∧ isHiggs p = true) ∧
    ¬ (isNegQuark p = true ∧ isHiggs p = true) := by
  simp only [isPosQuark, isNegQuark, isHiggs, decide_eq_true_eq]
  refine ⟨?_, ?_, ?_⟩ <;> intro h <;> omega

theorem loopBody_nMCP [Add R] (i : Nat) (p : MCParticle R) (v : Locals R) :
    (loopBody i p v).nMCP = v.nMCP := by
  simp only [loopBody, apply_ite Locals.nMCP, ite_self]

theorem loopBody_lrzEcm [Add R] (i : Nat) (p : MCParticle R) (v : Locals R) :
    (loopBody i p v).lrzEcm = v.lrzEcm := by
  simp only [loopBody, apply_ite Locals.lrzEcm, ite_self]

theorem loopBody_lrzEcmmc [Add R] (i : Nat) (p : MCParticle R) (v : Locals R) :
    (loopBody i p v).lrzEcmmc = v.lrzEcmmc := by
  simp only [loopBody, apply_ite Locals.lrzEcmmc, ite_self]

theorem loopBody_nOriginP [Add R] (i : Nat) (p : MCParticle R) (v : Locals R) :
    (loopBody i p v).nOriginP = if isOrigin p then v.nOriginP + 1 else v.nOriginP := by
  simp only [loopBody, isOrigin, apply_ite Locals.nOriginP, ite_self, decide_eq_true_eq]

theorem loopBody_qpdg0 [Add R] (i : Nat) (p : MCParticle R) (v : Locals R) :
    (loopBody i p v).qpdg0 = if isPosQuark p then p.pdg else v.qpdg0 := by
  simp only [loopBody, isPosQuark, apply_ite Locals.qpdg0, ite_self, decide_eq_true_eq]

theorem loopBody_qmc0 [Add R] (i : Nat) (p : MCParticle R) (v : Locals R) :
    (loopBody i p v).qmc0 = if isPosQuark p then getLorentzVector p else v.qmc0 := by
  simp only [loopBody, isPosQuark, apply_ite Locals.qmc0, ite_self, decide_eq_true_eq]

theorem loopBody_qpdg1 [Add R] (i : Nat) (p : MCParticle R) (v : Locals R) :
    (loopBody i p v).qpdg1 = if isNegQuark p then p.pdg else v.qpdg1 := by
  simp only [loopBody, isNegQuark, apply_ite Locals.qpdg1, ite_self, decide_eq_true_eq]

theorem loopBody_qmc1 [Add R] (i : Nat) (p : MCParticle R) (v : Locals R) :
    (loopBody i p v).qmc1 = if isNegQuark p then getLorentzVector p else v.qmc1 := by
  simp only [loopBody, isNegQuark, apply_ite Locals.qmc1, ite_self, decide_eq_true_eq]

theorem loopBody_lrzHmc [Add R] (i : Nat) (p : MCParticle R) (v : Locals R) :
    (loopBody i p v).lrzHmc = if isHiggs p then getLorentzVector p else v.lrzHmc := by
  simp only [loopBody, isHiggs, apply_ite Locals.lrzHmc, ite_self, decide_eq_true_eq]

theorem loopBody_lrzZmc [Add R] (i : Nat) (p : MCParticle R) (v : Locals R) :
    (loopBody i p v).lrzZmc =
      if (isPosQuark p || isNegQuark p) then v.lrzZmc + getLorentzVector p else v.lrzZmc := by
  simp only [loopBody, isPosQuark, isNegQuark, apply_ite Locals.lrzZmc, ite_self,
    decide_eq_true_eq, Bool.or_eq_true]
  split_ifs <;> first | rfl | (exfalso; omega)

theorem loopBody_lrzISRmc0 [Add R] (i : Nat) (p : MCParticle R) (v : Locals R) :
    (loopBody i p v).lrzISRmc0 =
      if i = 0 ∧ motherpdg p = 0 then getLorentzVector p else v.lrzISRmc0 := by
  simp only [loopBody, apply_ite Locals.lrzISRmc0, ite_self]

theorem loopBody_lrzISRmc1 [Add R] (i : Nat) (p : MCParticle R) (v : Locals R) :
    (loopBody i p v).lrzISRmc1 =
      if i = 1 ∧ motherpdg p = 0 then getLorentzVector p else v.lrzISRmc1 := by
  simp only [loopBody, apply_ite Locals.lrzISRmc1, ite_self]

/-! ## The loop, field by field -/

theorem loop_nMCP [Add R] (ps : List (MCParticle R)) (i : Nat) (v : Locals R) :
    (loop i ps v).nMCP = v.nMCP := by
  induction ps generalizing i v with
  | nil => rfl
  | cons p rest ih => rw [loop, ih, loopBody_nMCP]

theorem loop_lrzEcm [Add R] (ps : List (MCParticle R)) (i : Nat) (v : Locals R) :
    (loop i ps v).lrzEcm = v.lrzEcm := by
  induction ps generalizing i v with
  | nil => rfl
  | cons p rest ih => rw [loop, ih, loopBody_lrzEcm]

theorem loop_nOriginP [Add R] (ps : List (MCParticle R)) (i : Nat) (v : Locals R) :
    (loop i ps v).nOriginP = v.nOriginP + ((ps.filter isOrigin).length : Int) := by
  induction ps generalizing i v with
  | nil => simp [loop]
  | cons p rest ih =>
    rw [loop, ih, loopBody_nOriginP]
    by_cases h : isOrigin p = true
    · simp only [h, if_true, List.filter_cons_of_pos, List.length_cons]
      push_cast
      omega
    · simp only [h, List.filter_cons_of_neg, Bool.false_eq_true, if_false, not_false_eq_true]

/-- A field that the body overwrites under guard `c` with `f p` ends as
`f` of the last particle meeting `c`, or as it started when there is none. -/
theorem loop_lastWriter [Add R] {β : Type} (field : Locals R → β) (c : MCParticle R → Bool)
    (f : MCParticle R → β)
    (hbody : ∀ (i : Nat) (p : MCParticle R) (v : Locals R),
      field (loopBody i p v) = if c p then f p else field v)
    (ps : List (MCParticle R)) (i : Nat) (v : Locals R) :
    field (loop i ps v) = ((lastWith c ps).map f).getD (field v) := by
  induction ps generalizing i v with
  | nil => rfl
  | cons p rest ih =>
    rw [loop, ih, hbody, lastWith_cons]
    cases lastWith c rest with
    | some q => rfl
    | none =>
      by_cases h : c p = true
      · simp [h]
      · simp [h]

theorem loop_qpdg0 [Add R] (ps : List (MCParticle R)) (i : Nat) (v : Locals R) :
    (loop i ps v).qpdg0 = ((lastWith isPosQuark ps).map (fun p => p.pdg)).getD v.qpdg0 :=
  loop_lastWriter Locals.qpdg0 isPosQuark (fun p => p.pdg) loopBody_qpdg0 ps i v

theorem loop_qmc0 [Add R] (ps : List (MCParticle R)) (i : Nat) (v : Locals R) :
    (loop i ps v).qmc0 = ((lastWith isPosQuark ps).map getLorentzVector).getD v.qmc0 :=
  loop_lastWriter Locals.qmc0 isPosQuark getLorentzVector loopBody_qmc0 ps i v

theorem loop_qpdg1 [Add R] (ps : List (MCParticle R)) (i : Nat) (v : Locals R) :
    (loop i ps v).qpdg1 = ((lastWith isNegQuark ps).map (fun p => p.pdg)).getD v.qpdg1 :=
  loop_lastWriter Locals.qpdg1 isNegQuark (fun p => p.pdg) loopBody_qpdg1 ps i v

theorem loop_qmc1 [Add R] (ps : List (MCParticle R)) (i : Nat) (v : Locals R) :
    (loop i ps v).qmc1 = ((lastWith isNegQuark ps).map getLorentzVector).getD v.qmc1 :=
  loop_lastWriter Locals.qmc1 isNegQuark getLorentzVector loopBody_qmc1 ps i v

theorem loop_lrzHmc [Add R] (ps : List (MCParticle R)) (i : Nat) (v : Locals R) :
    (loop i ps v).lrzHmc = ((lastWith isHiggs ps).map getLorentzVector).getD v.lrzHmc :=
  loop_lastWriter Locals.lrzHmc isHiggs getLorentzVector loopBody_lrzHmc ps i v

theorem loop_lrzZmc [Add R] (ps : List (MCParticle R)) (i : Nat) (v : Locals R) :
    (loop i ps v).lrzZmc =
      sumFrom v.lrzZmc
        ((ps.filter (fun p => isPosQuark p || isNegQuark p)).map getLorentzVector) := by
  induction ps generalizing i v with
  | nil => rfl
  | cons p rest ih =>
    rw [loop, ih, loopBody_lrzZmc]
    by_cases h : (isPosQuark p || isNegQuark p) = true
    · simp only [h, if_true, List.filter_cons_of_pos, List.map_cons, sumFrom, List.foldl_cons]
    · simp only [h, List.filter_cons_of_neg, Bool.false_eq_true, if_false, not_false_eq_true]

theorem loop_lrzISRmc0_succ [Add R] (ps : List (MCParticle R)) (i : Nat) (v : Locals R) :
    (loop (i + 1) ps v).lrzISRmc0 = v.lrzISRmc0 := by
  induction ps generalizing i v with
  | nil => rfl
  | cons p rest ih =>
    rw [loop, ih, loopBody_lrzISRmc0]
    simp

theorem loop_lrzISRmc1_succ [Add R] (ps : List (MCParticle R)) (i : Nat) (v : Locals R) :
    (loop (i + 2) ps v).lrzISRmc1 = v.lrzISRmc1 := by
  induction ps generalizing i v with
  | nil => rfl
  | cons p rest ih =>
    rw [loop, ih, loopBody_lrzISRmc1]
    simp

theorem loop_lrzISRmc0 [Add R] (ps : List (MCParticle R)) (v : Locals R) :
    (loop 0 ps v).lrzISRmc0 = leadingAt v.lrzISRmc0 ps[0]? := by
  cases ps with
  | nil => rfl
  | cons p rest =>
    rw [loop, loop_lrzISRmc0_succ, loopBody_lrzISRmc0]
    simp [leadingAt]

theorem loop_lrzISRmc1 [Add R] (ps : List (MCParticle R)) (v : Locals R) :
    (loop 0 ps v).lrzISRmc1 = leadingAt v.lrzISRmc1 ps[1]? := by
  cases ps with
  | nil => rfl
  | cons p rest =>
    cases rest with
    | nil => simp [loop, loopBody_lrzISRmc1, leadingAt]
    | cons q rest2 =>
      rw [loop, loop, loop_lrzISRmc1_succ, loopBody_lrzISRmc1, loopBody_lrzISRmc1]
      simp [leadingAt]

/-! ## The event record, field by field -/

theorem eventLocals_nMCP [Add R] [Zero R] (fEcm : R) (u : Unset) (colMC : List (MCParticle R)) :
    (eventLocals fEcm u colMC).nMCP = colMC.length := by
  simp only [eventLocals, loop_nMCP]

theorem eventLocals_nOriginP [Add R] [Zero R] (fEcm : R) (u : Unset)
    (colMC : List (MCParticle R)) :
    (eventLocals fEcm u colMC).nOriginP = ((colMC.filter isOrigin).length : Int) := by
  simp only [eventLocals, loop_nOriginP, declareLocals, zero_add]

theorem eventLocals_qpdg0 [Add R] [Zero R] (fEcm : R) (u : Unset) (colMC : List (MCParticle R)) :
    (eventLocals fEcm u colMC).qpdg0 =
      ((lastWith isPosQuark colMC).map (fun p => p.pdg)).getD u.qpdg0 := by
  simp only [eventLocals, loop_qpdg0, declareLocals]

theorem eventLocals_qpdg1 [Add R] [Zero R] (fEcm : R) (u : Unset) (colMC : List (MCParticle R)) :
    (eventLocals fEcm u colMC).qpdg1 =
      ((lastWith isNegQuark colMC).map (fun p => p.pdg)).getD u.qpdg1 := by
  simp only [eventLocals, loop_qpdg1, declareLocals]

theorem eventLocals_qmc0 [Add R] [Zero R] (fEcm : R) (u : Unset) (colMC : List (MCParticle R)) :
    (eventLocals fEcm u colMC).qmc0 =
      ((lastWith isPosQuark colMC).map getLorentzVector).getD 0 := by
  simp only [eventLocals, loop_qmc0, declareLocals]

theorem eventLocals_qmc1 [Add R] [Zero R] (fEcm : R) (u : Unset) (colMC : List (MCParticle R)) :
    (eventLocals fEcm u colMC).qmc1 =
      ((lastWith isNegQuark colMC).map getLorentzVector).getD 0 := by
  simp only [eventLocals, loop_qmc1, declareLocals]

theorem eventLocals_lrzHmc [Add R] [Zero R] (fEcm : R) (u : Unset) (colMC : List (MCParticle R)) :
    (eventLocals fEcm u colMC).lrzHmc =
      ((lastWith isHiggs colMC).map getLorentzVector).getD 0 := by
  simp only [eventLocals, loop_lrzHmc, declareLocals]

theorem eventLocals_lrzZmc [Add R] [Zero R] (fEcm : R) (u : Unset) (colMC : List (MCParticle R)) :
    (eventLocals fEcm u colMC).lrzZmc =
      sumFrom 0 ((colMC.filter (fun p => isPosQuark p || isNegQuark p)).map getLorentzVector) := by
  simp only [eventLocals, loop_lrzZmc, declareLocals, TLorentzVector.SetPxPyPzE]
  rfl

theorem eventLocals_lrzISRmc0 [Add R] [Zero R] (fEcm : R) (u : Unset)
    (colMC : List (MCParticle R)) :
    (eventLocals fEcm u colMC).lrzISRmc0 = leadingAt 0 colMC[0]? := by
  simp only [eventLocals, loop_lrzISRmc0, declareLocals]

theorem eventLocals_lrzISRmc1 [Add R] [Zero R] (fEcm : R) (u : Unset)
    (colMC : List (MCParticle R)) :
    (eventLocals fEcm u colMC).lrzISRmc1 = leadingAt 0 colMC[1]? := by
  simp only [eventLocals, loop_lrzISRmc1, declareLocals]

theorem eventLocals_lrzEcm [Add R] [Zero R] (fEcm : R) (u : Unset) (colMC : List (MCParticle R)) :
    (eventLocals fEcm u colMC).lrzEcm = getLorentzEcm fEcm := by
  simp only [eventLocals, loop_lrzEcm, declareLocals]

theorem eventLocals_lrzEcmmc [Add R] [Zero R] (fEcm : R) (u : Unset)
    (colMC : List (MCParticle R)) :
    (eventLocals fEcm u colMC).lrzEcmmc =
      (eventLocals fEcm u colMC).qmc0 + (eventLocals fEcm u colMC).qmc1 +
        (eventLocals fEcm u colMC).lrzHmc + (eventLocals fEcm u colMC).lrzISRmc0 +
        (eventLocals fEcm u colMC).lrzISRmc1 := rfl

/-! ## The processor after a number of calls -/

theorem repeatLabel_succ (K : Nat) :
    repeatLabel (K + 1) = "No Cuts".toList ++ ends :: repeatLabel K := by
  induction K with
  | zero => rfl
  | succ n ih =>
    have h1 : repeatLabel (n + 1 + 1) = repeatLabel (n + 1) ++ "No Cuts".toList ++ [ends] := rfl
    have h2 : repeatLabel (n + 1) = repeatLabel n ++ "No Cuts".toList ++ [ends] := rfl
    rw [h1]
    conv_lhs => rw [ih]
    conv_rhs => rw [h2]
    simp only [List.append_assoc, List.cons_append]

theorem firstChar_repeatLabel_succ (K : Nat) : firstChar (repeatLabel (K + 1)) ≠ ends := by
  rw [repeatLabel_succ]
  show ('N' : Char) ≠ ends
  decide

theorem cString_repeatLabel_succ (K : Nat) :
    cString (repeatLabel (K + 1)) = "No Cuts".toList := by
  rw [repeatLabel_succ]
  rfl

theorem findBin_first_fill (c : Nat) :
    (cutHistogram c).FindBin Abscissa.minusHalf.incr = 1 := by
  have h : ∀ (a : List Nat), (TH1D.mk 20 0 20 a).FindBin Abscissa.minusHalf.incr = 1 := by
    intro a
    simp only [TH1D.FindBin, Abscissa.minusHalf, Abscissa.incr]
    decide
  exact h _

theorem fill_cutHistogram (c : Nat) :
    (cutHistogram c).Fill Abscissa.minusHalf.incr =
      cutHistogram (if c < 9007199254740992 then c + 1 else c) := by
  simp only [TH1D.Fill, findBin_first_fill]
  rfl

theorem fill_new : (TH1D.new 20 0 20).Fill Abscissa.minusHalf.incr = cutHistogram 1 := by
  decide

theorem names_step (K : Nat) :
    (repeatLabel K :: List.replicate 19 []).set Abscissa.minusHalf.incr.castInt.toNat
        ((repeatLabel K :: List.replicate 19 []).getD Abscissa.minusHalf.incr.castInt.toNat [] ++
          "No Cuts".toList ++ [ends]) =
      repeatLabel (K + 1) :: List.replicate 19 [] := by
  have h : Abscissa.minusHalf.incr.castInt.toNat = 0 := by decide
  rw [h]
  rfl

theorem wrapInt32_succ (K : Nat) :
    wrapInt32 (wrapInt32 (K : Int) + 1) = wrapInt32 ((K + 1 : Nat) : Int) := by
  unfold wrapInt32
  push_cast
  omega

theorem wrapInt32_of_lt {K : Nat} (h : K < 2147483648) : wrapInt32 (K : Int) = (K : Int) := by
  unfold wrapInt32
  omega

theorem afterCalls_zero (colMCP : String) (ecm : R) (nHello : Int) :
    init colMCP ecm nHello = afterCalls colMCP ecm nHello 0 0 [] := by
  rfl

/-- One call from a processor with `K` calls behind it, when line 118 does
not trap. -/
theorem processEvent_afterCalls [Add R] [Zero R] (colMCP : String) (ecm : R)
    (nHello nRun : Int) (K : Nat) (rows : List (Locals R)) (hrows : K = 0 → rows = [])
    (h0 : nHello ≠ 0) (h1 : nHello = -1 → K + 1 < 2147483648) (u : Unset) (evt : LCEvent R) :
    processEvent (afterCalls colMCP ecm nHello nRun K rows) u evt =
      (match evt.getCollection colMCP with
        | none => Outcome.thrown (afterCalls colMCP ecm nHello nRun (K + 1) rows)
        | some colMC => Outcome.returned
            (afterCalls colMCP ecm nHello nRun (K + 1) (rows ++ [eventLocals ecm u colMC]))) := by
  have hn := names_step K
  have hh : ((if K = 0 then none else some (cutHistogram (min K 9007199254740992))).getD
      (TH1D.new 20 0 20)).Fill Abscissa.minusHalf.incr =
        cutHistogram (min (K + 1) 9007199254740992) := by
    cases K with
    | zero => exact fill_new
    | succ n =>
      have hne : (n + 1 = 0) = False := by simp
      simp only [hne, if_false, Option.getD_some]
      rw [fill_cutHistogram]
      congr 1
      split_ifs <;> omega
  have hf : (if K = 0 then none else some ecm).getD ecm = ecm := by
    cases K <;> rfl
  have ht : (if K = 0 then none else some rows).getD [] = rows := by
    cases K with
    | zero => simp [hrows rfl]
    | succ n => rfl
  have hm : intMod (wrapInt32 ((K + 1 : Nat) : Int)) nHello =
      some (Int.tmod (wrapInt32 ((K + 1 : Nat) : Int)) nHello) := by
    unfold intMod
    rw [if_neg]
    rintro (h | ⟨ha, hb⟩)
    · exact h0 h
    · have hk := h1 hb
      rw [wrapInt32_of_lt hk] at ha
      omega
  have hg : (if Int.tmod (wrapInt32 ((K + 1 : Nat) : Int)) nHello = 0 then
        greetings nHello K ++ [wrapInt32 ((K + 1 : Nat) : Int)]
      else greetings nHello K) = greetings nHello (K + 1) := rfl
  have hK1 : (K + 1 = 0) = False := by simp
  unfold processEvent
  simp only [afterCalls, hn, hh, hf, ht, wrapInt32_succ, hm, hg, hK1, if_false]

theorem processEvents_afterCalls [Add R] [Zero R] (colMCP : String) (ecm : R)
    (nHello nRun : Int) (calls : List (Unset × LCEvent R)) (K : Nat) (rows : List (Locals R))
    (hrows : K = 0 → rows = []) (h0 : nHello ≠ 0)
    (h1 : nHello = -1 → K + calls.length < 2147483648) :
    processEvents (afterCalls colMCP ecm nHello nRun K rows) calls =
      ⟨afterCalls colMCP ecm nHello nRun (K + calls.length)
        (rows ++ calls.filterMap (rowOf colMCP ecm)), false⟩ := by
  induction calls generalizing K rows with
  | nil => simp [processEvents]
  | cons c rest ih =>
    obtain ⟨u, evt⟩ := c
    have h1s : nHello = -1 → K + 1 < 2147483648 := by
      intro h
      have := h1 h
      simp only [List.length_cons] at this
      omega
    have h1r : nHello = -1 → K + 1 + rest.length < 2147483648 := by
      intro h
      have := h1 h
      simp only [List.length_cons] at this
      omega
    have hlen : K + 1 + rest.length = K + (((u, evt) :: rest).length) := by
      simp only [List.length_cons]
      omega
    rw [processEvents, processEvent_afterCalls colMCP ecm nHello nRun K rows hrows h0 h1s u evt]
    cases hc : evt.getCollection colMCP with
    | none =>
      simp only []
      rw [ih (K + 1) rows (by omega) h1r, hlen]
      have hr : rowOf colMCP ecm (u, evt) = none := by
        unfold rowOf
        rw [hc]
        rfl
      rw [List.filterMap_cons, hr]
    | some colMC =>
      simp only []
      rw [ih (K + 1) _ (by omega) h1r, hlen]
      have hr : rowOf colMCP ecm (u, evt) = some (eventLocals ecm u colMC) := by
        unfold rowOf
        rw [hc]
        rfl
      rw [List.filterMap_cons, hr]
      simp only [List.append_assoc, List.singleton_append]

/-- The job reached from `init` by a sequence of calls, when line 118 never
traps. -/
theorem processEvents_init [Add R] [Zero R] (colMCP : String) (ecm : R) (nHello : Int)
    (calls : List (Unset × LCEvent R)) (h0 : nHello ≠ 0)
    (h1 : nHello = -1 → calls.length < 2147483648) :
    processEvents (init colMCP ecm nHello) calls =
      ⟨afterCalls colMCP ecm nHello 0 calls.length (calls.filterMap (rowOf colMCP ecm)),
        false⟩ := by
  rw [afterCalls_zero, processEvents_afterCalls colMCP ecm nHello 0 calls 0 []
    (fun _ => rfl) h0 (by simpa using h1)]
  simp

theorem end_afterCalls_succ (colMCP : String) (ecm : R) (nHello nRun : Int) (K : Nat)
    (rows : List (Locals R)) (hK : K + 1 < 2147483648) :
    end_ (afterCalls colMCP ecm nHello nRun (K + 1) rows) =
      some [⟨0, ((K + 1 : Nat) : Int), "No Cuts".toList⟩] := by
  have h0 : firstChar (repeatLabel (K + 1)) ≠ ends := firstChar_repeatLabel_succ K
  have h1 : firstChar ([] : List Char) = ends := rfl
  have hmin : min (K + 1) 9007199254740992 = K + 1 := by omega
  have hc : castCount (K + 1) = some ((K + 1 : Nat) : Int) := by
    unfold castCount
    rw [if_pos hK]
  simp [end_, cutLoop, afterCalls, h0, h1, cString_repeatLabel_succ, TH1D.GetBinContent,
    cutHistogram, hmin, hc]

theorem end_afterCalls_overflow (colMCP : String) (ecm : R) (nHello nRun : Int) (K : Nat)
    (rows : List (Locals R)) (hK : 2147483648 ≤ K) :
    end_ (afterCalls colMCP ecm nHello nRun K rows) = none := by
  obtain ⟨n, hn⟩ : ∃ n, K = n + 1 := ⟨K - 1, by omega⟩
  subst hn
  have h0 : firstChar (repeatLabel (n + 1)) ≠ ends := firstChar_repeatLabel_succ n
  have hc : castCount (min (n + 1) 9007199254740992) = none := by
    unfold castCount
    rw [if_neg]
    omega
  simp [end_, cutLoop, afterCalls, h0, TH1D.GetBinContent, cutHistogram, hc]

theorem rows_afterCalls (colMCP : String) (ecm : R) (nHello nRun : Int) (K : Nat)
    (rows : List (Locals R)) (hrows : K = 0 → rows = []) :
    (afterCalls colMCP ecm nHello nRun K rows).rows = rows := by
  cases K with
  | zero => simp [Processor.rows, afterCalls, hrows rfl]
  | succ n => rfl

/-- The dataset after a sequence of calls, when line 118 never traps: the
rows of the calls whose collection could be read, in call order. -/
theorem rows_processEvents_init [Add R] [Zero R] (colMCP : String) (ecm : R) (nHello : Int)
    (calls : List (Unset × LCEvent R)) (h0 : nHello ≠ 0)
    (h1 : nHello = -1 → calls.length < 2147483648) :
    (processEvents (init colMCP ecm nHello) calls).proc.rows =
      calls.filterMap (rowOf colMCP ecm) := by
  rw [processEvents_init colMCP ecm nHello calls h0 h1]
  apply rows_afterCalls
  intro h
  have hc : calls = [] := List.length_eq_zero.mp h
  subst hc
  rfl

/-- What one call does to the dataset, however it ends: it appends at most
the event record of its collection. -/
theorem processEvent_rows [Add R] [Zero R] (p : Processor R) (u : Unset) (evt : LCEvent R) :
    (processEvent p u evt).state.rows = p.rows ∨
    ∃ colMC, (processEvent p u evt).state.rows =
      p.rows ++ [eventLocals (p.fEcm.getD p._ecm) u colMC] := by
  unfold processEvent
  simp only []
  cases intMod (wrapInt32 (p._nEvt + 1)) p._nHello with
  | none => exact Or.inl rfl
  | some r =>
    cases evt.getCollection p._colMCP with
    | none => exact Or.inl rfl
    | some colMC => exact Or.inr ⟨colMC, rfl⟩

/-- A property of event records that holds of the rows present holds of
the rows after a sequence of calls. -/
theorem processEvents_rows_all [Add R] [Zero R] (Q : Locals R → Prop)
    (hQ : ∀ (f : R) (u : Unset) (colMC : List (MCParticle R)), Q (eventLocals f u colMC))
    (calls : List (Unset × LCEvent R)) (p : Processor R) (hp : ∀ v ∈ p.rows, Q v) :
    ∀ v ∈ (processEvents p calls).proc.rows, Q v := by
  induction calls generalizing p with
  | nil => exact hp
  | cons c rest ih =>
    obtain ⟨u, evt⟩ := c
    have hstep : ∀ v ∈ (processEvent p u evt).state.rows, Q v := by
      intro v hv
      rcases processEvent_rows p u evt with h | ⟨colMC, h⟩
      · rw [h] at hv
        exact hp v hv
      · rw [h] at hv
        rcases List.mem_append.mp hv with h2 | h2
        · exact hp v h2
        · rw [List.mem_singleton.mp h2]
          exact hQ _ _ _
    rw [processEvents]
    cases ho : processEvent p u evt with
    | returned q =>
      rw [ho] at hstep
      exact ih q hstep
    | thrown q =>
      rw [ho] at hstep
      exact ih q hstep
    | killed q =>
      rw [ho] at hstep
      exact hstep

theorem ioverlay_eq_zero_iff (p : MCParticle R) : ioverlay p = 0 ↔ p.isOverlay = false := by
  unfold ioverlay
  cases p.isOverlay <;> simp

theorem nparents_eq_zero_iff (p : MCParticle R) : nparents p = 0 ↔ p.parents = [] := by
  unfold nparents
  cases p.parents with
  | nil => simp
  | cons a l =>
    simp only [List.length_cons, reduceCtorEq, iff_false]
    push_cast
    omega

/-- Parent code `0` means: no parent, or a first parent of species code `0`. -/
theorem motherpdg_eq_zero {p : MCParticle R} (h : motherpdg p = 0) :
    p.parents = [] ∨ p.parents.head? = some 0 := by
  unfold motherpdg nparents at h
  cases hp : p.parents with
  | nil => exact Or.inl rfl
  | cons a l =>
    right
    rw [hp] at h
    have hl : ((a :: l).length : Int) > 0 := by
      simp only [List.length_cons]
      push_cast
      omega
    rw [if_pos hl] at h
    simp only [List.headD_cons] at h
    rw [h]
    rfl

theorem motherpdg_of_no_parent {p : MCParticle R} (h : p.parents = []) : motherpdg p = 0 := by
  unfold motherpdg nparents
  rw [h]
  rfl

theorem isPosQuark_iff (p : MCParticle R) :
    isPosQuark p = true ↔
      (0 < p.pdg ∧ p.pdg < 10) ∧ motherpdg p = 0 ∧ p.isOverlay = false := by
  simp only [isPosQuark, decide_eq_true_eq, ioverlay_eq_zero_iff, gt_iff_lt]

theorem isNegQuark_iff (p : MCParticle R) :
    isNegQuark p = true ↔
      (-10 < p.pdg ∧ p.pdg < 0) ∧ motherpdg p = 0 ∧ p.isOverlay = false := by
  simp only [isNegQuark, decide_eq_true_eq, ioverlay_eq_zero_iff, gt_iff_lt]

theorem isHiggs_iff (p : MCParticle R) :
    isHiggs p = true ↔ p.pdg = 25 ∧ motherpdg p = 0 ∧ p.isOverlay = false := by
  simp only [isHiggs, decide_eq_true_eq, ioverlay_eq_zero_iff]

theorem specPosQuark_eq (p : MCParticle R) : specPosQuark p = isPosQuark p := by
  rw [Bool.eq_iff_iff, isPosQuark_iff]
  simp only [specPosQuark, decide_eq_true_eq]
  constructor
  · rintro ⟨h1, h2, h3⟩
    exact ⟨by omega, h3⟩
  · rintro ⟨h1, h3⟩
    exact ⟨by omega, by omega, h3⟩

theorem specNegQuark_eq (p : MCParticle R) : specNegQuark p = isNegQuark p := by
  rw [Bool.eq_iff_iff, isNegQuark_iff]
  simp only [specNegQuark, decide_eq_true_eq]
  constructor
  · rintro ⟨h1, h2, h3⟩
    exact ⟨by omega, h3⟩
  · rintro ⟨h1, h3⟩
    exact ⟨by omega, by omega, h3⟩

theorem specHiggs_eq (p : MCParticle R) : specHiggs p = isHiggs p := by
  rw [Bool.eq_iff_iff, isHiggs_iff]
  simp only [specHiggs, decide_eq_true_eq]

/-- The coded body with its guards named. -/
theorem loopBody_eq_guards [Add R] (i : Nat) (p : MCParticle R) (v : Locals R) :
    loopBody i p v =
      (let v1 := if isOrigin p then { v with nOriginP := v.nOriginP + 1 } else v
       let v2 := if isPosQuark p then
           { v1 with qpdg0 := p.pdg, qmc0 := getLorentzVector p,
                     lrzZmc := v1.lrzZmc + getLorentzVector p } else v1
       let v3 := if isNegQuark p then
           { v2 with qpdg1 := p.pdg, qmc1 := getLorentzVector p,
                     lrzZmc := v2.lrzZmc + getLorentzVector p } else v2
       let v4 := if isHiggs p then { v3 with lrzHmc := getLorentzVector p } else v3
       let v5 := if i = 0 ∧ motherpdg p = 0 then
           { v4 with lrzISRmc0 := getLorentzVector p } else v4
       if i = 1 ∧ motherpdg p = 0 then { v5 with lrzISRmc1 := getLorentzVector p } else v5) := by
  simp only [loopBody, isOrigin, isPosQuark, isNegQuark, isHiggs, decide_eq_true_eq]

/-- The chain of the specification and the independent tests of the source
leave the same locals. -/
theorem loopBodySpec_eq [Add R] (i : Nat) (p : MCParticle R) (v : Locals R) :
    loopBodySpec i p v = loopBody i p v := by
  have hx := guards_exclusive p
  have ho : (p.parents = [] ∧ p.isOverlay = false) ↔ isOrigin p = true := by
    simp only [isOrigin, decide_eq_true_eq, ioverlay_eq_zero_iff, nparents_eq_zero_iff]
  rw [loopBody_eq_guards]
  simp only [loopBodySpec, specPosQuark_eq, specNegQuark_eq, specHiggs_eq, ho]
  cases hP : isPosQuark p with
  | true =>
    have hN : isNegQuark p = false := by
      cases h : isNegQuark p with
      | false => rfl
      | true => exact absurd ⟨hP, h⟩ hx.1
    have hH : isHiggs p = false := by
      cases h : isHiggs p with
      | false => rfl
      | true => exact absurd ⟨hP, h⟩ hx.2.1
    simp only [hN, hH, if_true, Bool.false_eq_true, if_false]
  | false =>
    cases hN : isNegQuark p with
    | true =>
      have hH : isHiggs p = false := by
        cases h : isHiggs p with
        | false => rfl
        | true => exact absurd ⟨hN, h⟩ hx.2.2
      simp only [hH, if_true, Bool.false_eq_true, if_false]
    | false => simp only [Bool.false_eq_true, if_false]

theorem vec_zero_add [Add R] [Zero R] (h0 : ∀ x : R, 0 + x = x) (a : TLorentzVector R) :
    0 + a = a := by
  show TLorentzVector.mk ((0 : R) + a.px) ((0 : R) + a.py) ((0 : R) + a.pz) ((0 : R) + a.e) = a
  rw [h0, h0, h0, h0]

theorem vec_add_comm [Add R] (hc : ∀ x y : R, x + y = y + x) (a b : TLorentzVector R) :
    a + b = b + a := by
  show TLorentzVector.mk (a.px + b.px) (a.py + b.py) (a.pz + b.pz) (a.e + b.e) =
    TLorentzVector.mk (b.px + a.px) (b.py + a.py) (b.pz + a.pz) (b.e + a.e)
  rw [hc a.px, hc a.py, hc a.pz, hc a.e]

/-- With at most one particle per quark guard still to come, and the slot
of a guard still zero when such a particle is to come, the accumulator
stays the sum of the two quark slots. -/
theorem loop_pair_sum [Add R] [Zero R] (h0 : ∀ x : R, 0 + x = x)
    (hc : ∀ x y : R, x + y = y + x) (ps : List (MCParticle R)) (i : Nat) (v : Locals R)
    (hq0 : v.qmc0 = 0 ∨ ps.filter isPosQuark = [])
    (hq1 : v.qmc1 = 0 ∨ ps.filter isNegQuark = [])
    (hP : (ps.filter isPosQuark).length ≤ 1) (hN : (ps.filter isNegQuark).length ≤ 1)
    (hv : v.lrzZmc = v.qmc0 + v.qmc1) :
    (loop i ps v).lrzZmc = (loop i ps v).qmc0 + (loop i ps v).qmc1 := by
  induction ps generalizing i v with
  | nil => exact hv
  | cons p rest ih =>
    rw [loop]
    have hx := guards_exclusive p
    cases hpos : isPosQuark p with
    | true =>
      have hneg : isNegQuark p = false := by
        cases h : isNegQuark p with
        | false => rfl
        | true => exact absurd ⟨hpos, h⟩ hx.1
      rw [List.filter_cons_of_pos hpos] at hP hq0
      rw [List.filter_cons_of_neg (by simp [hneg])] at hN hq1
      have hrest : rest.filter isPosQuark = [] := by
        apply List.eq_nil_of_length_eq_zero
        simp only [List.length_cons] at hP
        omega
      have hz : v.qmc0 = 0 := by
        cases hq0 with
        | inl h => exact h
        | inr h => exact absurd h (List.cons_ne_nil _ _)
      apply ih
      · exact Or.inr hrest
      · rw [loopBody_qmc1, hneg]
        exact hq1
      · rw [hrest]
        exact Nat.zero_le 1
      · exact hN
      · rw [loopBody_lrzZmc, loopBody_qmc0, loopBody_qmc1, hpos, hneg, hv, hz]
        simp only [Bool.or_false, if_true, Bool.false_eq_true, if_false]
        rw [vec_zero_add h0, vec_add_comm hc]
    | false =>
      rw [List.filter_cons_of_neg (by simp [hpos])] at hP hq0
      cases hneg : isNegQuark p with
      | true =>
        rw [List.filter_cons_of_pos hneg] at hN hq1
        have hrest : rest.filter isNegQuark = [] := by
          apply List.eq_nil_of_length_eq_zero
          simp only [List.length_cons] at hN
          omega
        have hz : v.qmc1 = 0 := by
          cases hq1 with
          | inl h => exact h
          | inr h => exact absurd h (List.cons_ne_nil _ _)
        apply ih
        · rw [loopBody_qmc0, hpos]
          exact hq0
        · exact Or.inr hrest
        · exact hP
        · rw [hrest]
          exact Nat.zero_le 1
        · rw [loopBody_lrzZmc, loopBody_qmc0, loopBody_qmc1, hpos, hneg, hv, hz]
          simp only [Bool.false_or, if_true, Bool.false_eq_true, if_false]
          rw [vec_add_comm hc v.qmc0 0, vec_zero_add h0]
      | false =>
        rw [List.filter_cons_of_neg (by simp [hneg])] at hN hq1
        apply ih
        · rw [loopBody_qmc0, hpos]
          exact hq0
        · rw [loopBody_qmc1, hneg]
          exact hq1
        · exact hP
        · exact hN
        · rw [loopBody_lrzZmc, loopBody_qmc0, loopBody_qmc1, hpos, hneg]
          exact hv

end Lemmas

/-! ## The claims -/

/-- C1: for every event the combined four-vector `lrzEcmmc` written by
`processEvent` is, component by component, the sum of the five sub-vectors
written for the same event (`qmc[0]`, `qmc[1]`, `lrzHmc`, `lrzISRmc[0]`,
`lrzISRmc[1]`); this holds for the event record of every particle list and
energy, and for every row of the dataset after any sequence of calls,
whatever the steering parameters. -/
theorem C1_combined_is_componentwise_sum (R : Type) [Add R] [Zero R] :
    (∀ (fEcm : R) (u : Unset) (colMC : List (MCParticle R)),
      (eventLocals fEcm u colMC).lrzEcmmc.px =
          (eventLocals fEcm u colMC).qmc0.px + (eventLocals fEcm u colMC).qmc1.px +
            (eventLocals fEcm u colMC).lrzHmc.px + (eventLocals fEcm u colMC).lrzISRmc0.px +
            (eventLocals fEcm u colMC).lrzISRmc1.px ∧
        (eventLocals fEcm u colMC).lrzEcmmc.py =
          (eventLocals fEcm u colMC).qmc0.py + (eventLocals fEcm u colMC).qmc1.py +
            (eventLocals fEcm u colMC).lrzHmc.py + (eventLocals fEcm u colMC).lrzISRmc0.py +
            (eventLocals fEcm u colMC).lrzISRmc1.py ∧
        (eventLocals fEcm u colMC).lrzEcmmc.pz =
          (eventLocals fEcm u colMC).qmc0.pz + (eventLocals fEcm u colMC).qmc1.pz +
            (eventLocals fEcm u colMC).lrzHmc.pz + (eventLocals fEcm u colMC).lrzISRmc0.pz +
            (eventLocals fEcm u colMC).lrzISRmc1.pz ∧
        (eventLocals fEcm u colMC).lrzEcmmc.e =
          (eventLocals fEcm u colMC).qmc0.e + (eventLocals fEcm u colMC).qmc1.e +
            (eventLocals fEcm u colMC).lrzHmc.e + (eventLocals fEcm u colMC).lrzISRmc0.e +
            (eventLocals fEcm u colMC).lrzISRmc1.e) ∧
    (∀ (colMCP : String) (ecm : R) (nHello : Int) (calls : List (Unset × LCEvent R)),
      (processEvents (init colMCP ecm nHello) calls).proc.rows.map (fun v => v.lrzEcmmc) =
        (processEvents (init colMCP ecm nHello) calls).proc.rows.map
          (fun v => v.qmc0 + v.qmc1 + v.lrzHmc + v.lrzISRmc0 + v.lrzISRmc1)) := by
  refine ⟨fun fEcm u colMC => ⟨rfl, rfl, rfl, rfl⟩, fun colMCP ecm nHello calls => ?_⟩
  apply List.map_congr_left
  exact processEvents_rows_all
    (fun v => v.lrzEcmmc = v.qmc0 + v.qmc1 + v.lrzHmc + v.lrzISRmc0 + v.lrzISRmc1)
    (fun _ _ _ => rfl) calls (init colMCP ecm nHello) (fun v hv => by cases hv)

/-- C2 as stated fails: in the event `[daughterPhoton, isrPhoton]` the first
particle without parent is `isrPhoton`, at position 1, and no second one
exists; the claim puts its four-vector in leading slot 0 and leaves slot 1
at zero, whereas the source leaves slot 0 at zero and writes slot 1. -/
theorem C2_counterexample :
    ([daughterPhoton, isrPhoton].filter (fun p => p.parents.isEmpty))[0]? = some isrPhoton ∧
    ([daughterPhoton, isrPhoton].filter (fun p => p.parents.isEmpty))[1]? = none ∧
    (eventLocals (500 : Int) cleanStorage [daughterPhoton, isrPhoton]).lrzISRmc0 = 0 ∧
    (eventLocals (500 : Int) cleanStorage [daughterPhoton, isrPhoton]).lrzISRmc0 ≠
      getLorentzVector isrPhoton ∧
    (eventLocals (500 : Int) cleanStorage [daughterPhoton, isrPhoton]).lrzISRmc1 =
      getLorentzVector isrPhoton ∧
    (eventLocals (500 : Int) cleanStorage [daughterPhoton, isrPhoton]).lrzISRmc1 ≠ 0 := by
  decide

/-- C2 (amended): for every event, leading slot 0 is the four-vector of the
particle at position 0 when that particle has parent code 0 (no parent, or
a first parent of species code 0), whatever its species and overlay flag,
and the zero vector when the list is empty or that parent code is not 0;
leading slot 1 is the same for position 1. -/
theorem C2_leading_slots_are_positional (R : Type) [Add R] [Zero R] (fEcm : R) (u : Unset)
    (colMC : List (MCParticle R)) :
    (eventLocals fEcm u colMC).lrzISRmc0 =
      (match colMC[0]? with
        | some p => if motherpdg p = 0 then getLorentzVector p else 0
        | none => 0) ∧
    (eventLocals fEcm u colMC).lrzISRmc1 =
      (match colMC[1]? with
        | some p => if motherpdg p = 0 then getLorentzVector p else 0
        | none => 0) := by
  rw [eventLocals_lrzISRmc0, eventLocals_lrzISRmc1]
  constructor
  · cases colMC[0]? <;> rfl
  · cases colMC[1]? <;> rfl

/-- C3 as stated fails: in the event `[quarkOfCodeZeroParent]` the
positive-quark slot is populated from a particle that has a parent (of
species code 0). -/
theorem C3_counterexample :
    lastWith isPosQuark [quarkOfCodeZeroParent] = some quarkOfCodeZeroParent ∧
    (eventLocals (500 : Int) cleanStorage [quarkOfCodeZeroParent]).qpdg0 = 3 ∧
    (eventLocals (500 : Int) cleanStorage [quarkOfCodeZeroParent]).qmc0 =
      getLorentzVector quarkOfCodeZeroParent ∧
    (eventLocals (500 : Int) cleanStorage [quarkOfCodeZeroParent]).qmc0 ≠ 0 ∧
    quarkOfCodeZeroParent.parents ≠ [] := by
  decide

/-- C3 (amended): for every event, the positive-quark slot is written by the
last particle of the list that passes the guard of line 180, and that
particle is in the list, has parent code 0 (its parent list is empty, or
its first parent has species code 0) and is not overlay; when no particle
passes that guard the slot keeps its initial content (the unset species
code and the zero vector).  The same holds for the negative-quark slot and
the guard of line 185.  A particle whose parent code is not 0 or that is
overlay leaves both quark slots as they are. -/
theorem C3_quark_slots_need_parent_code_zero (R : Type) [Add R] [Zero R] (fEcm : R)
    (u : Unset) (colMC : List (MCParticle R)) (p : MCParticle R) :
    (lastWith isPosQuark colMC = some p →
      (eventLocals fEcm u colMC).qpdg0 = p.pdg ∧
      (eventLocals fEcm u colMC).qmc0 = getLorentzVector p ∧
      p ∈ colMC ∧ motherpdg p = 0 ∧ (p.parents = [] ∨ p.parents.head? = some 0) ∧
      p.isOverlay = false) ∧
    (lastWith isNegQuark colMC = some p →
      (eventLocals fEcm u colMC).qpdg1 = p.pdg ∧
      (eventLocals fEcm u colMC).qmc1 = getLorentzVector p ∧
      p ∈ colMC ∧ motherpdg p = 0 ∧ (p.parents = [] ∨ p.parents.head? = some 0) ∧
      p.isOverlay = false) ∧
    (lastWith isPosQuark colMC = none →
      (eventLocals fEcm u colMC).qpdg0 = u.qpdg0 ∧ (eventLocals fEcm u colMC).qmc0 = 0) ∧
    (lastWith isNegQuark colMC = none →
      (eventLocals fEcm u colMC).qpdg1 = u.qpdg1 ∧ (eventLocals fEcm u colMC).qmc1 = 0) ∧
    ((motherpdg p ≠ 0 ∨ p.isOverlay = true) →
      ∀ (i : Nat) (v : Locals R),
        (loopBody i p v).qpdg0 = v.qpdg0 ∧ (loopBody i p v).qmc0 = v.qmc0 ∧
        (loopBody i p v).qpdg1 = v.qpdg1 ∧ (loopBody i p v).qmc1 = v.qmc1) := by
  refine ⟨?_, ?_, ?_, ?_, ?_⟩
  · intro h
    obtain ⟨hm, hg⟩ := lastWith_some_mem h
    have hg2 := (isPosQuark_iff p).mp hg
    rw [eventLocals_qpdg0, eventLocals_qmc0, h]
    exact ⟨rfl, rfl, hm, hg2.2.1, motherpdg_eq_zero hg2.2.1, hg2.2.2⟩
  · intro h
    obtain ⟨hm, hg⟩ := lastWith_some_mem h
    have hg2 := (isNegQuark_iff p).mp hg
    rw [eventLocals_qpdg1, eventLocals_qmc1, h]
    exact ⟨rfl, rfl, hm, hg2.2.1, motherpdg_eq_zero hg2.2.1, hg2.2.2⟩
  · intro h
    rw [eventLocals_qpdg0, eventLocals_qmc0, h]
    exact ⟨rfl, rfl⟩
  · intro h
    rw [eventLocals_qpdg1, eventLocals_qmc1, h]
    exact ⟨rfl, rfl⟩
  · intro h i v
    have hpos : isPosQuark p = false := by
      cases hb : isPosQuark p with
      | false => rfl
      | true =>
        have hg := (isPosQuark_iff p).mp hb
        rcases h with h | h
        · exact absurd hg.2.1 h
        · rw [hg.2.2] at h
          exact absurd h (by decide)
    have hneg : isNegQuark p = false := by
      cases hb : isNegQuark p with
      | false => rfl
      | true =>
        have hg := (isNegQuark_iff p).mp hb
        rcases h with h | h
        · exact absurd hg.2.1 h
        · rw [hg.2.2] at h
          exact absurd h (by decide)
    rw [loopBody_qpdg0, loopBody_qmc0, loopBody_qpdg1, loopBody_qmc1, hpos, hneg]
    exact ⟨rfl, rfl, rfl, rfl⟩

/-- Witness of C3 (amended): the event `[quarkB, antiquarkB, higgs]`, whose
positive-quark slot is written by `quarkB` and whose negative-quark slot is
written by `antiquarkB`; the event `[overlayQuarkS, daughterPhoton]`, in
which no particle passes a quark guard; and the overlay quark, which
leaves the slots of any state as they are. -/
theorem C3_quark_slots_need_parent_code_zero_witness :
    (lastWith isPosQuark [quarkB, antiquarkB, higgs] = some quarkB ∧
      (eventLocals (500 : Int) cleanStorage [quarkB, antiquarkB, higgs]).qpdg0 = quarkB.pdg ∧
      (eventLocals (500 : Int) cleanStorage [quarkB, antiquarkB, higgs]).qmc0 =
        getLorentzVector quarkB ∧
      quarkB ∈ [quarkB, antiquarkB, higgs] ∧ motherpdg quarkB = 0 ∧
      (quarkB.parents = [] ∨ quarkB.parents.head? = some 0) ∧ quarkB.isOverlay = false) ∧
    (lastWith isNegQuark [quarkB, antiquarkB, higgs] = some antiquarkB ∧
      (eventLocals (500 : Int) cleanStorage [quarkB, antiquarkB, higgs]).qpdg1 =
        antiquarkB.pdg ∧
      (eventLocals (500 : Int) cleanStorage [quarkB, antiquarkB, higgs]).qmc1 =
        getLorentzVector antiquarkB ∧
      antiquarkB ∈ [quarkB, antiquarkB, higgs] ∧ motherpdg antiquarkB = 0 ∧
      (antiquarkB.parents = [] ∨ antiquarkB.parents.head? = some 0) ∧
      antiquarkB.isOverlay = false) ∧
    (lastWith isPosQuark [overlayQuarkS, daughterPhoton] = none ∧
      (eventLocals (500 : Int) usedStorage [overlayQuarkS, daughterPhoton]).qpdg0 =
        usedStorage.qpdg0 ∧
      (eventLocals (500 : Int) usedStorage [overlayQuarkS, daughterPhoton]).qmc0 = 0) ∧
    (lastWith isNegQuark [overlayQuarkS, daughterPhoton] = none ∧
      (eventLocals (500 : Int) usedStorage [overlayQuarkS, daughterPhoton]).qpdg1 =
        usedStorage.qpdg1 ∧
      (eventLocals (500 : Int) usedStorage [overlayQuarkS, daughterPhoton]).qmc1 = 0) ∧
    ((motherpdg overlayQuarkS ≠ 0 ∨ overlayQuarkS.isOverlay = true) ∧
      (loopBody 0 overlayQuarkS (declareLocals (500 : Int) usedStorage)).qpdg0 = 5 ∧
      (loopBody 0 overlayQuarkS (declareLocals (500 : Int) usedStorage)).qmc0 = 0) :=
  ⟨⟨by decide,
      (C3_quark_slots_need_parent_code_zero Int 500 cleanStorage [quarkB, antiquarkB, higgs]
        quarkB).1 (by decide)⟩,
    ⟨by decide,
      (C3_quark_slots_need_parent_code_zero Int 500 cleanStorage [quarkB, antiquarkB, higgs]
        antiquarkB).2.1 (by decide)⟩,
    ⟨by decide,
      (C3_quark_slots_need_parent_code_zero Int 500 usedStorage [overlayQuarkS, daughterPhoton]
        quarkB).2.2.1 (by decide)⟩,
    ⟨by decide,
      (C3_quark_slots_need_parent_code_zero Int 500 usedStorage [overlayQuarkS, daughterPhoton]
        quarkB).2.2.2.1 (by decide)⟩,
    ⟨by decide,
      ((C3_quark_slots_need_parent_code_zero Int 500 usedStorage [] overlayQuarkS).2.2.2.2
        (by decide) 0 (declareLocals (500 : Int) usedStorage)).1,
      ((C3_quark_slots_need_parent_code_zero Int 500 usedStorage [] overlayQuarkS).2.2.2.2
        (by decide) 0 (declareLocals (500 : Int) usedStorage)).2.1⟩⟩

/-- C4, evaluated where it fails: for an empty particle list the two
species codes written are the content of the uninitialised `qpdg` storage
(here `5` and `-5`, not `0`), whatever that content is, so that the second
row of a job whose first event has a b-quark pair and whose second event is
empty repeats the codes of the first; the three slot vectors are zero. -/
theorem C4_species_codes_come_from_unset_storage :
    (eventLocals (500 : Int) usedStorage []).qpdg0 = 5 ∧
    (eventLocals (500 : Int) usedStorage []).qpdg1 = -5 ∧
    (eventLocals (500 : Int) cleanStorage []).qpdg0 = 0 ∧
    (eventLocals (500 : Int) usedStorage []).qmc0 = 0 ∧
    (eventLocals (500 : Int) usedStorage []).qmc1 = 0 ∧
    (eventLocals (500 : Int) usedStorage []).lrzHmc = 0 ∧
    (∀ (fEcm : Int) (u : Unset),
      (eventLocals fEcm u []).qpdg0 = u.qpdg0 ∧ (eventLocals fEcm u []).qpdg1 = u.qpdg1) ∧
    (processEvents (init "MCParticle" (500 : Int) 1000)
        [(cleanStorage, eventOf [quarkB, antiquarkB]), (usedStorage, eventOf [])]).proc.rows.map
      (fun v => (v.qpdg0, v.qpdg1)) = [(5, -5), (5, -5)] := by
  refine ⟨by decide, by decide, by decide, by decide, by decide, by decide,
    fun _ _ => ⟨rfl, rfl⟩, by decide⟩

/-- C5 as stated fails.  After one call in which the event has no
collection of the configured name, the counter and the pass count are `1`
and the dataset has no row; after three calls of which the second fails,
the dataset has two rows.  With `NHelloAnalysis = 0` the first call is
killed on line 118 and the dataset has no row although the collection is
there.  After `2^31` calls `_nEvt` is `-2^31`. -/
theorem C5_counterexample :
    (processEvents (init "MCParticle" (500 : Int) 1000)
      [(cleanStorage, eventWithoutMCParticle)]).proc._nEvt = 1 ∧
    (processEvents (init "MCParticle" (500 : Int) 1000)
      [(cleanStorage, eventWithoutMCParticle)]).proc.hStatAnl.map
        (fun h => h.GetBinContent 1) = some 1 ∧
    (processEvents (init "MCParticle" (500 : Int) 1000)
      [(cleanStorage, eventWithoutMCParticle)]).proc.rows.length = 0 ∧
    (processEvents (init "MCParticle" (500 : Int) 1000)
      [(cleanStorage, eventOf []), (cleanStorage, eventWithoutMCParticle),
        (cleanStorage, eventOf [quarkB])]).proc.rows.length = 2 ∧
    (processEvents (init "MCParticle" (500 : Int) 0) [(cleanStorage, eventOf [])]).killed =
      true ∧
    (processEvents (init "MCParticle" (500 : Int) 0)
      [(cleanStorage, eventOf [])]).proc.rows.length = 0 ∧
    (processEvents (init "MCParticle" (500 : Int) 1000)
      (List.replicate 2147483648 (cleanStorage, eventOf []))).proc._nEvt = -2147483648 := by
  refine ⟨by decide, by decide, by decide, by decide, by decide, by decide, ?_⟩
  rw [processEvents_init "MCParticle" (500 : Int) 1000 _ (by decide)
    (fun h => absurd h (by decide))]
  show wrapInt32 (((List.replicate 2147483648 (cleanStorage, eventOf [])).length : Nat) : Int) =
    -2147483648
  rw [List.length_replicate]
  decide

/-- C5 (amended): with a nonzero `NHelloAnalysis`, after every sequence of
K < 2^31 calls of `processEvent` from `init`, failed reads included, the
job is alive, `_nEvt` is K and the content of the bin of cut ordinal 0 is
K; the dataset holds, in call order, one row per call whose collection
could be read, and that row is the record left by the completed loop of
that call; a call whose read fails appends nothing, so that the dataset has
K rows when every read succeeds. -/
theorem C5_rows_and_counters (R : Type) [Add R] [Zero R] (colMCP : String) (ecm : R)
    (nHello : Int) (calls : List (Unset × LCEvent R)) (hHello : nHello ≠ 0)
    (hK : calls.length < 2147483648) :
    (processEvents (init colMCP ecm nHello) calls).killed = false ∧
    (processEvents (init colMCP ecm nHello) calls).proc._nEvt = (calls.length : Int) ∧
    ((processEvents (init colMCP ecm nHello) calls).proc.hStatAnl.map
      (fun h => h.GetBinContent (0 + 1))).getD 0 = calls.length ∧
    (processEvents (init colMCP ecm nHello) calls).proc.rows =
      calls.filterMap (fun c => (c.2.getCollection colMCP).map (eventLocals ecm c.1)) ∧
    ((∀ c ∈ calls, (c.2.getCollection colMCP).isSome = true) →
      (processEvents (init colMCP ecm nHello) calls).proc.rows.length = calls.length) := by
  have hrows := rows_processEvents_init colMCP ecm nHello calls hHello (fun _ => hK)
  have hinit := processEvents_init colMCP ecm nHello calls hHello (fun _ => hK)
  refine ⟨?_, ?_, ?_, hrows, ?_⟩
  · rw [hinit]
  · rw [hinit]
    exact wrapInt32_of_lt hK
  · rw [hinit]
    cases hl : calls.length with
    | zero => rfl
    | succ n =>
      have hmin : min (n + 1) 9007199254740992 = n + 1 := by omega
      show (cutHistogram (min (n + 1) 9007199254740992)).GetBinContent (0 + 1) = n + 1
      rw [hmin]
      rfl
  · intro hall
    rw [hrows]
    clear hrows hinit hK
    induction calls with
    | nil => rfl
    | cons c rest ih =>
      have hc : (c.2.getCollection colMCP).isSome = true := hall c (List.mem_cons_self _ _)
      have hrest : ∀ d ∈ rest, (d.2.getCollection colMCP).isSome = true :=
        fun d hd => hall d (List.mem_cons_of_mem _ hd)
      obtain ⟨colMC, hcol⟩ := Option.isSome_iff_exists.mp hc
      have hrow : rowOf colMCP ecm c = some (eventLocals ecm c.1 colMC) := by
        unfold rowOf
        rw [hcol]
        rfl
      rw [List.filterMap_cons, hrow]
      simp only [List.length_cons]
      rw [ih hrest]

/-- Witness of C5 (amended): two calls with readable collections and the
default `NHelloAnalysis`. -/
theorem C5_rows_and_counters_witness :
    (1000 : Int) ≠ 0 ∧
    [(cleanStorage, eventOf []), (usedStorage, eventOf [quarkB])].length < 2147483648 ∧
    (∀ c ∈ [(cleanStorage, eventOf []), (usedStorage, eventOf [quarkB])],
      (c.2.getCollection "MCParticle").isSome = true) ∧
    (processEvents (init "MCParticle" (500 : Int) 1000)
      [(cleanStorage, eventOf []), (usedStorage, eventOf [quarkB])]).proc.rows.length =
      [(cleanStorage, eventOf []), (usedStorage, eventOf [quarkB])].length :=
  ⟨by decide, by decide, by decide,
    (C5_rows_and_counters Int "MCParticle" 500 1000
      [(cleanStorage, eventOf []), (usedStorage, eventOf [quarkB])] (by decide)
      (by decide)).2.2.2.2 (by decide)⟩

/-- C6 as stated fails.  With `NHelloAnalysis = 0` the first call is killed
on line 118, so that after K = 1 event `end()` is never reached and no cut
table is printed.  After K = 2^31 calls the content of bin `0 + 1` is
`2^31`, which `static_cast<int>` cannot hold: the printed count is not K. -/
theorem C6_counterexample :
    (processEvents (init "MCParticle" (500 : Int) 0) [(cleanStorage, eventOf [])]).killed =
      true ∧
    (processEvents (init "MCParticle" (500 : Int) 1000)
      (List.replicate 2147483648 (cleanStorage, eventOf []))).proc.hStatAnl.map
        (fun h => h.GetBinContent (0 + 1)) = some 2147483648 ∧
    castCount 2147483648 = none ∧
    end_ (processEvents (init "MCParticle" (500 : Int) 1000)
      (List.replicate 2147483648 (cleanStorage, eventOf []))).proc ≠
        some [⟨0, 2147483648, "No Cuts".toList⟩] := by
  have hjob := processEvents_init "MCParticle" (500 : Int) 1000
    (List.replicate 2147483648 (cleanStorage, eventOf [])) (by decide)
    (fun h => absurd h (by decide))
  rw [List.length_replicate] at hjob
  refine ⟨by decide, ?_, by decide, ?_⟩
  · rw [hjob]
    rfl
  · rw [hjob, end_afterCalls_overflow _ _ _ _ _ _ (Nat.le_refl _)]
    exact fun h => Option.noConfusion h

/-- C6 (amended): with a nonzero `NHelloAnalysis`, for every K with
1 <= K < 2^31, after K calls of `processEvent` (whether or not their reads
succeed) the job is alive and `end()` prints exactly one line of the cut
table: ordinal 0, count K, label "No Cuts".  The buffer `gCutName[0]` then
holds K copies of the label and its terminator, read back as the label
alone, the other nineteen buffers are empty, the fill at `++selid` lands in
bin `0 + 1`, and `(Int_t)selid` is `0`. -/
theorem C6_cut_table_has_one_row (R : Type) [Add R] [Zero R] (colMCP : String) (ecm : R)
    (nHello : Int) (calls : List (Unset × LCEvent R)) (hHello : nHello ≠ 0)
    (hK : 1 ≤ calls.length) (hK2 : calls.length < 2147483648) :
    (processEvents (init colMCP ecm nHello) calls).killed = false ∧
    end_ (processEvents (init colMCP ecm nHello) calls).proc =
      some [⟨0, (calls.length : Int), "No Cuts".toList⟩] ∧
    (processEvents (init colMCP ecm nHello) calls).proc.gCutName =
      repeatLabel calls.length :: List.replicate 19 [] ∧
    cString (repeatLabel calls.length) = "No Cuts".toList ∧
    (TH1D.new 20 0 20).FindBin Abscissa.minusHalf.incr = 0 + 1 ∧
    Abscissa.minusHalf.incr.castInt = 0 := by
  obtain ⟨n, hn⟩ : ∃ n, calls.length = n + 1 := ⟨calls.length - 1, by omega⟩
  rw [processEvents_init colMCP ecm nHello calls hHello (fun _ => hK2), hn]
  rw [hn] at hK2
  exact ⟨rfl, end_afterCalls_succ colMCP ecm nHello 0 n _ hK2, rfl,
    cString_repeatLabel_succ n, by decide, by decide⟩

/-- Witness of C6 (amended): two calls, the second with a failing read. -/
theorem C6_cut_table_has_one_row_witness :
    (1000 : Int) ≠ 0 ∧
    1 ≤ [(cleanStorage, eventOf []), (cleanStorage, eventWithoutMCParticle)].length ∧
    [(cleanStorage, eventOf []), (cleanStorage, eventWithoutMCParticle)].length <
      2147483648 ∧
    end_ (processEvents (init "MCParticle" (500 : Int) 1000)
      [(cleanStorage, eventOf []), (cleanStorage, eventWithoutMCParticle)]).proc =
      some [⟨0, 2, "No Cuts".toList⟩] :=
  ⟨by decide, by decide, by decide,
    (C6_cut_table_has_one_row Int "MCParticle" 500 1000
      [(cleanStorage, eventOf []), (cleanStorage, eventWithoutMCParticle)] (by decide)
      (by decide) (by decide)).2.1⟩

/-- C7 as stated fails: for the one-particle event `[overlayQuarkS]`
(species code 3, no parents, overlay) the positive-quark slot is not
populated: its code is not 3 and its vector is zero, not the particle's. -/
theorem C7_counterexample :
    overlayQuarkS.pdg = 3 ∧ overlayQuarkS.parents = [] ∧
    (eventLocals (500 : Int) cleanStorage [overlayQuarkS]).qpdg0 ≠ 3 ∧
    (eventLocals (500 : Int) cleanStorage [overlayQuarkS]).qmc0 = 0 ∧
    (eventLocals (500 : Int) cleanStorage [overlayQuarkS]).qmc0 ≠
      getLorentzVector overlayQuarkS := by
  decide

/-- C7 (amended): for every event whose particle list is exactly one
particle with species code 3 and no parents, whatever its kinematics, the
negative-quark and boson-candidate four-vectors are zero, and when the
particle is not overlay the positive-quark slot holds code 3 and the
particle's four-vector. -/
theorem C7_single_parentless_s_quark (R : Type) [Add R] [Zero R] (fEcm : R) (u : Unset)
    (p : MCParticle R) (hpdg : p.pdg = 3) (hpar : p.parents = []) :
    (p.isOverlay = false →
      (eventLocals fEcm u [p]).qpdg0 = 3 ∧
      (eventLocals fEcm u [p]).qmc0 = getLorentzVector p) ∧
    (eventLocals fEcm u [p]).qmc1 = 0 ∧
    (eventLocals fEcm u [p]).lrzHmc = 0 := by
  have hneg : isNegQuark p = false := by
    cases h : isNegQuark p with
    | false => rfl
    | true => have := ((isNegQuark_iff p).mp h).1; omega
  have hh : isHiggs p = false := by
    cases h : isHiggs p with
    | false => rfl
    | true => have := ((isHiggs_iff p).mp h).1; omega
  refine ⟨?_, ?_, ?_⟩
  · intro hov
    have hpos : isPosQuark p = true :=
      (isPosQuark_iff p).mpr ⟨by omega, motherpdg_of_no_parent hpar, hov⟩
    rw [eventLocals_qpdg0, eventLocals_qmc0, lastWith_cons, lastWith_nil, hpos]
    exact ⟨hpdg, rfl⟩
  · rw [eventLocals_qmc1, lastWith_cons, lastWith_nil, hneg]
    rfl
  · rw [eventLocals_lrzHmc, lastWith_cons, lastWith_nil, hh]
    rfl

/-- Witness of C7 (amended): the event `[quarkS]`. -/
theorem C7_single_parentless_s_quark_witness :
    quarkS.pdg = 3 ∧ quarkS.parents = [] ∧ quarkS.isOverlay = false ∧
    (eventLocals (500 : Int) usedStorage [quarkS]).qpdg0 = 3 ∧
    (eventLocals (500 : Int) usedStorage [quarkS]).qmc0 = getLorentzVector quarkS ∧
    (eventLocals (500 : Int) usedStorage [quarkS]).qmc1 = 0 ∧
    (eventLocals (500 : Int) usedStorage [quarkS]).lrzHmc = 0 :=
  have h := C7_single_parentless_s_quark Int 500 usedStorage quarkS (by decide) (by decide)
  ⟨by decide, by decide, by decide, (h.1 (by decide)).1, (h.1 (by decide)).2, h.2.1, h.2.2⟩

/-- C8 as stated fails: for the empty particle list and the default energy
500 the beam four-vector is `(0, 0, 0, 500)`, not the zero vector. -/
theorem C8_counterexample :
    (eventLocals (500 : Int) cleanStorage []).lrzEcm = ⟨0, 0, 0, 500⟩ ∧
    (eventLocals (500 : Int) cleanStorage []).lrzEcm ≠ 0 := by
  decide

/-- C8 (amended): for every event with an empty particle list and every
energy, the particle count and the primary-particle count are 0 and both
quark slots, the accumulator `lrzZmc`, the boson candidate, both leading
slots and the combined four-vector are the zero vector, while the beam
four-vector is `(0, 0, 0, ecm)`, the zero vector exactly when `ecm` is 0. -/
theorem C8_empty_event (R : Type) [AddZeroClass R] (fEcm : R) (u : Unset) :
    (eventLocals fEcm u []).nMCP = 0 ∧
    (eventLocals fEcm u []).nOriginP = 0 ∧
    (eventLocals fEcm u []).qmc0 = 0 ∧
    (eventLocals fEcm u []).qmc1 = 0 ∧
    (eventLocals fEcm u []).lrzZmc = 0 ∧
    (eventLocals fEcm u []).lrzHmc = 0 ∧
    (eventLocals fEcm u []).lrzISRmc0 = 0 ∧
    (eventLocals fEcm u []).lrzISRmc1 = 0 ∧
    (eventLocals fEcm u []).lrzEcmmc = 0 ∧
    (eventLocals fEcm u []).lrzEcm = ⟨0, 0, 0, fEcm⟩ ∧
    ((eventLocals fEcm u []).lrzEcm = 0 ↔ fEcm = 0) := by
  refine ⟨rfl, rfl, rfl, rfl, rfl, rfl, rfl, rfl, ?_, rfl, ?_⟩
  · show ((0 : TLorentzVector R) + 0 + 0 + 0 + 0) = 0
    have h0 : ((0 : TLorentzVector R) + 0) = 0 := by
      show TLorentzVector.mk ((0 : R) + 0) ((0 : R) + 0) ((0 : R) + 0) ((0 : R) + 0) = ⟨0, 0, 0, 0⟩
      rw [zero_add]
    rw [h0, h0, h0, h0]
  · show (TLorentzVector.mk (0 : R) 0 0 fEcm = ⟨0, 0, 0, 0⟩) ↔ fEcm = 0
    constructor
    · intro h
      exact (TLorentzVector.mk.inj h).2.2.2
    · intro h
      rw [h]

/-- C9: the classification step worded as an exclusive chain (positive
quark, else negative quark, else boson of code 25) and the step coded as
three independent `if` statements leave the same locals, in particular the
same quark slots, accumulator `lrzZmc` and boson-candidate vector, for
every particle, every starting state and every particle list, because no
particle passes two of the three guards. -/
theorem C9_chain_equals_independent_ifs (R : Type) [Add R] :
    (∀ (p : MCParticle R),
      ¬ (isPosQuark p = true ∧ isNegQuark p = true) ∧
      ¬ (isPosQuark p = true ∧ isHiggs p = true) ∧
      ¬ (isNegQuark p = true ∧ isHiggs p = true)) ∧
    (∀ (i : Nat) (p : MCParticle R) (v : Locals R), loopBodySpec i p v = loopBody i p v) ∧
    (∀ (i : Nat) (ps : List (MCParticle R)) (v : Locals R), loopSpec i ps v = loop i ps v) ∧
    (∀ (i : Nat) (ps : List (MCParticle R)) (v : Locals R),
      (loopSpec i ps v).qpdg0 = (loop i ps v).qpdg0 ∧
      (loopSpec i ps v).qmc0 = (loop i ps v).qmc0 ∧
      (loopSpec i ps v).qpdg1 = (loop i ps v).qpdg1 ∧
      (loopSpec i ps v).qmc1 = (loop i ps v).qmc1 ∧
      (loopSpec i ps v).lrzZmc = (loop i ps v).lrzZmc ∧
      (loopSpec i ps v).lrzHmc = (loop i ps v).lrzHmc) := by
  have hloop : ∀ (ps : List (MCParticle R)) (i : Nat) (v : Locals R),
      loopSpec i ps v = loop i ps v := by
    intro ps
    induction ps with
    | nil => intro i v; rfl
    | cons p rest ih =>
      intro i v
      rw [loopSpec, loop, loopBodySpec_eq, ih]
  refine ⟨guards_exclusive, loopBodySpec_eq, fun i ps v => hloop ps i v, fun i ps v => ?_⟩
  rw [hloop ps i v]
  exact ⟨rfl, rfl, rfl, rfl, rfl, rfl⟩

/-- C10: for every event each match slot holds the data of the last
particle in iteration order that passes its guard (positive quark: code in
1..9, parent code 0, not overlay; negative quark: code in -9..-1, likewise;
boson: code 25, likewise) and its initial content when there is none; the
accumulator `lrzZmc` is the sum, taken in iteration order from zero, of the
four-vectors of all particles passing either quark guard; hence, when zero
is neutral on the left and addition commutes, `lrzZmc` is
`qmc[0] + qmc[1]` whenever at most one particle passes each quark guard. -/
theorem C10_last_match_and_full_sum (R : Type) [Add R] [Zero R] (fEcm : R) (u : Unset)
    (colMC : List (MCParticle R)) :
    (eventLocals fEcm u colMC).qpdg0 =
      ((lastWith isPosQuark colMC).map (fun p => p.pdg)).getD u.qpdg0 ∧
    (eventLocals fEcm u colMC).qmc0 =
      ((lastWith isPosQuark colMC).map getLorentzVector).getD 0 ∧
    (eventLocals fEcm u colMC).qpdg1 =
      ((lastWith isNegQuark colMC).map (fun p => p.pdg)).getD u.qpdg1 ∧
    (eventLocals fEcm u colMC).qmc1 =
      ((lastWith isNegQuark colMC).map getLorentzVector).getD 0 ∧
    (eventLocals fEcm u colMC).lrzHmc =
      ((lastWith isHiggs colMC).map getLorentzVector).getD 0 ∧
    (eventLocals fEcm u colMC).lrzZmc =
      sumFrom 0 ((colMC.filter (fun p => isPosQuark p || isNegQuark p)).map getLorentzVector) ∧
    (∀ p : MCParticle R, isPosQuark p = true ↔
      (1 ≤ p.pdg ∧ p.pdg ≤ 9) ∧ motherpdg p = 0 ∧ p.isOverlay = false) ∧
    (∀ p : MCParticle R, isNegQuark p = true ↔
      (-9 ≤ p.pdg ∧ p.pdg ≤ -1) ∧ motherpdg p = 0 ∧ p.isOverlay = false) ∧
    (∀ p : MCParticle R, isHiggs p = true ↔
      p.pdg = 25 ∧ motherpdg p = 0 ∧ p.isOverlay = false) ∧
    ((∀ x : R, 0 + x = x) → (∀ x y : R, x + y = y + x) →
      (colMC.filter isPosQuark).length ≤ 1 → (colMC.filter isNegQuark).length ≤ 1 →
      (eventLocals fEcm u colMC).lrzZmc =
        (eventLocals fEcm u colMC).qmc0 + (eventLocals fEcm u colMC).qmc1) := by
  refine ⟨eventLocals_qpdg0 fEcm u colMC, eventLocals_qmc0 fEcm u colMC,
    eventLocals_qpdg1 fEcm u colMC, eventLocals_qmc1 fEcm u colMC,
    eventLocals_lrzHmc fEcm u colMC, eventLocals_lrzZmc fEcm u colMC, ?_, ?_, ?_, ?_⟩
  · intro p
    rw [isPosQuark_iff]
    constructor <;> rintro ⟨h1, h2⟩ <;> exact ⟨by omega, h2⟩
  · intro p
    rw [isNegQuark_iff]
    constructor <;> rintro ⟨h1, h2⟩ <;> exact ⟨by omega, h2⟩
  · exact isHiggs_iff
  · intro h0 hc hP hN
    have hz : ((0 : TLorentzVector R) + 0) = 0 := by
      show TLorentzVector.mk ((0 : R) + 0) ((0 : R) + 0) ((0 : R) + 0) ((0 : R) + 0) = ⟨0, 0, 0, 0⟩
      rw [h0]
    exact loop_pair_sum h0 hc colMC 0 _ (Or.inl rfl) (Or.inl rfl) hP hN hz.symm

/-- Witness of C10: the event `[antiquarkB, isrPhoton, quarkB, higgs]` over
the integers. -/
theorem C10_last_match_and_full_sum_witness :
    (∀ x : Int, 0 + x = x) ∧ (∀ x y : Int, x + y = y + x) ∧
    ([antiquarkB, isrPhoton, quarkB, higgs].filter isPosQuark).length ≤ 1 ∧
    ([antiquarkB, isrPhoton, quarkB, higgs].filter isNegQuark).length ≤ 1 ∧
    (eventLocals (500 : Int) cleanStorage [antiquarkB, isrPhoton, quarkB, higgs]).lrzZmc =
      (eventLocals (500 : Int) cleanStorage [antiquarkB, isrPhoton, quarkB, higgs]).qmc0 +
        (eventLocals (500 : Int) cleanStorage [antiquarkB, isrPhoton, quarkB, higgs]).qmc1 :=
  ⟨Int.zero_add, Int.add_comm, by decide, by decide,
    (C10_last_match_and_full_sum Int 500 cleanStorage
      [antiquarkB, isrPhoton, quarkB, higgs]).2.2.2.2.2.2.2.2.2
      Int.zero_add Int.add_comm (by decide) (by decide)⟩


end EcmCheck
